import Mathlib

/-!
# KEP metadata validation: a shallow embedding

Embedding of `pkg/legacy/keps/validations/yaml.go` (`ValidateStructure`,
`validateMilestone`) and `pkg/kepval/approval.go` (`isPRRRequired`), together with
the parts of the Go standard library and of `blang/semver` that these functions call.

Conventions.
* A Go `string` is a Lean `String`, read as its sequence of code points. Go compares
  strings byte by byte; on UTF-8 text that order coincides with the order on code
  points used here.
* A Go `map[interface{}]interface{}` is the list of its entries *in the order in which
  one `range` loop visits them*. Go leaves that order unspecified, so statements about
  a map quantify over the list.
* A run of `ValidateStructure` ends in `nil`, in an error value, or in a run-time panic
  (a failed single-value type assertion); `Outcome` keeps the three apart.
-/

namespace Kep

/-! ## Go library: strings -/

/-- Case tables of Go's `unicode` package for runes outside ASCII. They are data of the
Go distribution and are taken as a parameter; on ASCII the functions below do not
consult them. `lower` is `unicode.ToLower`; `foldReaches sr tr` says whether the
`unicode.SimpleFold` orbit walk that `strings.EqualFold` starts at the smaller rune `sr`
stops at the larger rune `tr`. -/
structure CaseTables where
  lower : Char → Char
  foldReaches : Char → Char → Bool

/-- Case tables that leave every rune outside ASCII alone. The concrete documents below
have ASCII keys, on which no table is consulted. -/
def asciiOnly : CaseTables := ⟨fun c => c, fun _ _ => false⟩

/-- The rune map of `unicode.ToLower`: ASCII is handled inline, the rest by table. -/
def lowerRune (U : CaseTables) (c : Char) : Char :=
  if c.toNat < 128 then
    (if 65 ≤ c.toNat ∧ c.toNat ≤ 90 then Char.ofNat (c.toNat + 32) else c)
  else U.lower c

/-- Go `strings.ToLower`. -/
def ToLower (U : CaseTables) (s : String) : String :=
  ⟨s.data.map (lowerRune U)⟩

/-- One step of `strings.EqualFold`: are the runes `a` and `b` equal under simple
case folding. -/
def foldRuneEq (U : CaseTables) (a b : Char) : Bool :=
  if a = b then true
  else
    let sr := if b.toNat < a.toNat then b else a
    let tr := if b.toNat < a.toNat then a else b
    if tr.toNat < 128 then
      decide (65 ≤ sr.toNat ∧ sr.toNat ≤ 90 ∧ tr.toNat = sr.toNat + 32)
    else U.foldReaches sr tr

/-- Go `strings.EqualFold` on rune sequences. -/
def equalFoldRunes (U : CaseTables) : List Char → List Char → Bool
  | [], [] => true
  | a :: s, b :: t => foldRuneEq U a b && equalFoldRunes U s t
  | _, _ => false

/-- Go `strings.EqualFold`. -/
def EqualFold (U : CaseTables) (s t : String) : Bool :=
  equalFoldRunes U s.data t.data

/-- Go `a < b` on strings, as rune sequences. -/
def runesLess : List Char → List Char → Bool
  | [], [] => false
  | [], _ :: _ => true
  | _ :: _, [] => false
  | a :: s, b :: t =>
    if a.toNat < b.toNat then true
    else if b.toNat < a.toNat then false
    else runesLess s t

/-- Go `a < b` on strings. -/
def stringLess (a b : String) : Bool := runesLess a.data b.data

/-- Go `a >= b` on strings. -/
def stringGE (a b : String) : Bool := !stringLess a b

/-! ## Go library: sort -/

/-- The loop of Go `sort.Search`, with the loop variables `i` and `j`. Every iteration
shrinks `j - i`, so `fuel = j - i` iterations are never exhausted. -/
def searchLoop (f : Nat → Bool) : Nat → Nat → Nat → Nat
  | 0, i, _ => i
  | fuel + 1, i, j =>
    if i < j then
      let h := (i + j) / 2
      if !f h then searchLoop f fuel (h + 1) j
      else searchLoop f fuel i h
    else i

/-- Go `sort.Search`. -/
def Search (n : Nat) (f : Nat → Bool) : Nat := searchLoop f n 0 n

/-- Go `sort.SearchStrings`: binary search for the first index whose element is `>= x`. -/
def SearchStrings (a : List String) (x : String) : Nat :=
  Search a.length (fun i => stringGE (a.getD i "") x)

/-- The order in which `sort.Strings` arranges a slice: `x` before `y` when `x <= y`. -/
def sortRel (x y : String) : Prop := stringGE y x = true

instance : DecidableRel sortRel :=
  fun x y => inferInstanceAs (Decidable (stringGE y x = true))

/-- Go `sort.Strings`: the slice in increasing order. Strings that compare equal are
equal, so the sorted slice does not depend on the sorting algorithm. -/
def sortStrings (a : List String) : List String :=
  a.insertionSort sortRel

/-- The test `index >= len(list) || list[index] != v` that follows every
`sort.SearchStrings` call in `ValidateStructure`. -/
def notFound (list : List String) (v : String) : Bool :=
  let index := SearchStrings list v
  decide (index ≥ list.length) || decide (list.getD index "" ≠ v)

/-! ## Go library: regexp

The three patterns of `yaml.go` use literals, `\` escapes, `.`, a character range, `*`
and `|`. `compile` reads that fragment of the RE2 syntax; `Regexp.Match` is the
unanchored match of Go `(*Regexp).Match`. -/

/-- A pattern item that consumes one rune. -/
inductive CharClass where
  | lit (c : Char)
  | anyNotNL
  | range (lo hi : Char)
deriving DecidableEq, Repr

/-- A rune class, taken once or repeated (`*`). -/
inductive Piece where
  | one (c : CharClass)
  | star (c : CharClass)
deriving DecidableEq, Repr

/-- A compiled pattern: the alternatives of a top-level `|`, each a concatenation. -/
abbrev Regexp := List (List Piece)

/-- Runes with a meaning of their own in RE2 syntax. -/
def isMeta (c : Char) : Bool :=
  c ∈ ['(', ')', '+', '?', '{', '}', '^', '$', '*', '|', '[', ']', '\\', '.']

/-- Read one rune class from the front of a pattern. A backslash followed by a
punctuation rune is that rune taken literally; a bare `.` is any rune but newline. -/
def parseAtom : List Char → Option (CharClass × List Char)
  | [] => none
  | c :: rest =>
    if c = '\\' then
      match rest with
      | [] => none
      | e :: rest2 => if e.isAlphanum then none else some (.lit e, rest2)
    else if c = '.' then some (.anyNotNL, rest)
    else if c = '[' then
      match rest with
      | lo :: d :: hi :: cl :: rest2 =>
        if d = '-' ∧ cl = ']' ∧ lo.isAlphanum ∧ hi.isAlphanum then some (.range lo hi, rest2)
        else none
      | _ => none
    else if isMeta c then none
    else some (.lit c, rest)

/-- Pattern reader: `cur` is the alternative being read, `done` the finished ones. -/
def compileAux : Nat → List Char → List Piece → Regexp → Option Regexp
  | 0, _, _, _ => none
  | _ + 1, [], cur, done => some (done ++ [cur])
  | fuel + 1, c :: rest, cur, done =>
    if c = '|' then compileAux fuel rest [] (done ++ [cur])
    else
      match parseAtom (c :: rest) with
      | none => none
      | some (cls, rest2) =>
        match rest2 with
        | '*' :: rest3 => compileAux fuel rest3 (cur ++ [.star cls]) done
        | _ => compileAux fuel rest2 (cur ++ [.one cls]) done

/-- Go `regexp.Compile` on the fragment above (`none`: not a pattern of the fragment). -/
def compile (pattern : String) : Option Regexp :=
  compileAux (pattern.data.length + 1) pattern.data [] []

/-- Go `regexp.MustCompile`; a pattern that does not compile matches nothing here. -/
def MustCompile (pattern : String) : Regexp := (compile pattern).getD []

/-- Does the rune belong to the class. -/
def CharClass.test : CharClass → Char → Bool
  | .lit c, x => decide (x = c)
  | .anyNotNL, x => decide (x ≠ '\n')
  | .range lo hi, x => decide (lo.toNat ≤ x.toNat ∧ x.toNat ≤ hi.toNat)

/-- Repetition: try the continuation `k` here, or consume one rune of the class. -/
def starLoop (c : CharClass) (k : List Char → Bool) : List Char → Bool
  | [] => k []
  | x :: t => k (x :: t) || (c.test x && starLoop c k t)

/-- Does the concatenation match a front part of the input. -/
def matchPieces : List Piece → List Char → Bool
  | [], _ => true
  | .one c :: ps, s =>
    match s with
    | [] => false
    | x :: t => c.test x && matchPieces ps t
  | .star c :: ps, s => starLoop c (matchPieces ps) s

/-- Does some alternative match at the front of the input. -/
def matchHere (re : Regexp) (s : List Char) : Bool :=
  re.any (fun alt => matchPieces alt s)

/-- Does the pattern match at some position of the input. -/
def matchAnywhere (re : Regexp) : List Char → Bool
  | [] => matchHere re []
  | x :: t => matchHere re (x :: t) || matchAnywhere re t

/-- Go `(*Regexp).Match([]byte(v))`. -/
def Regexp.Match (re : Regexp) (v : String) : Bool := matchAnywhere re v.data

/-- Go `strings.Join`. -/
def Join (elems : List String) (sep : String) : String :=
  match elems with
  | [] => ""
  | e :: rest => rest.foldl (fun acc x => acc ++ sep ++ x) e

/-! ## yaml.go: data -/

/-- A key of a decoded YAML mapping. -/
inductive Key where
  | str (s : String)
  | int (i : Int)
  | bool (b : Bool)
  | null
deriving DecidableEq, Repr

/-- A decoded YAML value (`interface{}`). `null` is the nil interface; `int` and
`bool` stand for the scalars that are neither string, list nor mapping. -/
inductive Value where
  | null
  | str (s : String)
  | int (i : Int)
  | bool (b : Bool)
  | list (xs : List Value)
  | map (m : List (Key × Value))

/-- A `map[interface{}]interface{}`, as its entries in `range` order. -/
abbrev Doc := List (Key × Value)

/-- Modelled from the spec: the error constructors of package `util` (`NewKeyMustBeSpecified`
and so on), which is not among the sources; one constructor per error kind of the
spec's taxonomy, holding the arguments the source passes. `fetch` is an error returned
by `api.FetchGroups` or `api.FetchPRRApprovers`. -/
inductive Err where
  | KeyMustBeSpecified (key : String)
  | KeyMustBeString (key : String)
  | ValueMustBeString (key : String) (value : Value)
  | ValueMustBeOneOf (key value : String) (values : List String)
  | MustHaveOneValue (key : String)
  | MustHaveAtLeastOneValue (key : String)
  | ValueMustBeListOfStrings (key : String) (value : Value)
  | ValueMustBeMilestone (key value : String)
  | ValueMustBeStruct (key : String) (value : Value)
  | fetch (msg : String)

/-- How a call ends. -/
inductive Outcome where
  | nil
  | error (e : Err)
  | panic

/-- How one iteration of the `range` loop of `ValidateStructure` ends: the loop goes on
(with the current contents of the slice `prrApprovers`), the function returns an error,
or a type assertion panics. -/
inductive Step where
  | next (prrApprovers : List String)
  | ret (e : Err)
  | panic

def mandatoryKeys : List String := ["title", "owning-sig"]

def statuses : List String :=
  ["provisional", "implementable", "implemented", "deferred", "rejected", "withdrawn", "replaced"]

def reStatus : Regexp := MustCompile (Join statuses "|")

def stages : List String := ["alpha", "beta", "stable"]

def reStages : Regexp := MustCompile (Join stages "|")

/-- The source writes the pattern as a raw string literal with two backslashes before
the dot; the Lean literal below, with each backslash escaped, denotes that same text. -/
def reMilestone : Regexp := MustCompile "v1\\\\.[1-9][0-9]*"

/-! ## yaml.go: ValidateStructure -/

/-- Go `_, found := parsed[key]` for a string `key`. -/
def hasKey (parsed : Doc) (key : String) : Bool :=
  parsed.any (fun e => decide (e.1 = Key.str key))

/-- Go `value == nil`. -/
def Value.isNil : Value → Bool
  | .null => true
  | _ => false

/-- Go `v, _ := value.(string)`: the zero value when `value` is not a string. -/
def asString : Value → String
  | .str s => s
  | _ => ""

/-- The body shared, token for token, by `case "status"` and `case "stage"`. -/
def enumCase (re : Regexp) (allowed : List String) (k : String) (value : Value)
    (prrApprovers : List String) : Step :=
  match value with
  | .list _ => .ret (.ValueMustBeString k value)
  | _ =>
    let v := asString value
    if !re.Match v then .ret (.ValueMustBeOneOf k v allowed) else .next prrApprovers

/-- Body of `case "owning-sig"`. -/
def owningSigCase (listGroups : List String) (k : String) (value : Value)
    (prrApprovers : List String) : Step :=
  match value with
  | .list _ => .ret (.ValueMustBeString k value)
  | _ =>
    let v := asString value
    if notFound listGroups v then .ret (.ValueMustBeOneOf k v listGroups)
    else .next prrApprovers

/-- Body of `case "title", "creation-date", "last-updated"`, which `case "editor"`
falls through to. -/
def stringCase (k : String) (value : Value) (prrApprovers : List String) : Step :=
  match value with
  | .list _ => .ret (.ValueMustBeString k value)
  | .str v => if v = "" then .ret (.MustHaveOneValue k) else .next prrApprovers
  | _ => .ret (.ValueMustBeString k (.str ""))

/-- The inner loop of `case "authors", ...` taken for `participating-sigs`; the
assertion `value.(string)` panics on an element that is not a string. -/
def groupsLoop (k : String) (listGroups : List String) : List Value → Outcome
  | [] => .nil
  | .str v :: rest =>
    if notFound listGroups v then .error (.ValueMustBeOneOf k v listGroups)
    else groupsLoop k listGroups rest
  | _ :: _ => .panic

/-- Body of `case "authors", "reviewers", "approvers"`, which the optional lists fall
through to. A nil `value` matches no case of the type switch. -/
def listCase (U : CaseTables) (listGroups : List String) (k : String) (value : Value)
    (prrApprovers : List String) : Step :=
  match value with
  | .list values =>
    if values.length = 0 then .ret (.MustHaveAtLeastOneValue k)
    else if EqualFold U k "participating-sigs" then
      match groupsLoop k listGroups values with
      | .nil => .next prrApprovers
      | .error e => .ret e
      | .panic => .panic
    else .next prrApprovers
  | .null => .next prrApprovers
  | _ => .ret (.ValueMustBeListOfStrings k value)

/-- Body of `case "participating-sigs", "replaces", "superseded-by", "see-also"`. -/
def optionalListCase (U : CaseTables) (listGroups : List String) (k : String)
    (value : Value) (prrApprovers : List String) : Step :=
  if value.isNil then .next prrApprovers
  else
    match value with
    | .list v => if v.length = 0 then .next prrApprovers
                 else listCase U listGroups k value prrApprovers
    | _ => .next prrApprovers

/-- Go `if len(v) > 0 && v[0] == '@' { v = v[1:] }`. -/
def stripAt (v : String) : String :=
  match v.data with
  | c :: t => if c = '@' then ⟨t⟩ else v
  | [] => v

/-- The inner loop of `case "prr-approvers"`, over the sorted slice. -/
def approversLoop (k : String) (prrApprovers : List String) : List Value → Outcome
  | [] => .nil
  | .str v0 :: rest =>
    let v := stripAt v0
    if notFound prrApprovers v then .error (.ValueMustBeOneOf k v prrApprovers)
    else approversLoop k prrApprovers rest
  | _ :: _ => .panic

/-- Body of `case "prr-approvers"`; `sort.Strings` sorts the slice in place, so the
sorted slice is what later iterations see. -/
def prrApproversCase (k : String) (value : Value) (prrApprovers : List String) : Step :=
  match value with
  | .list values =>
    let sorted := sortStrings prrApprovers
    match approversLoop k sorted values with
    | .nil => .next sorted
    | .error e => .ret e
    | .panic => .panic
  | .null => .next prrApprovers
  | _ => .ret (.ValueMustBeListOfStrings k value)

/-- Body of `case "latest-milestone"`. -/
def latestMilestoneCase (k : String) (value : Value) (prrApprovers : List String) : Step :=
  match value with
  | .list _ => .ret (.ValueMustBeString k value)
  | _ =>
    let v := asString value
    if !reMilestone.Match v then .ret (.ValueMustBeMilestone k v) else .next prrApprovers

/-- Source function `validateMilestone`, over the entries in `range` order. -/
def validateMilestone (U : CaseTables) : List (Key × Value) → Outcome
  | [] => .nil
  | (key, value) :: rest =>
    match key with
    | .str k =>
      let lk := ToLower U k
      if lk = "alpha" ∨ lk = "beta" ∨ lk = "stable" then
        match value with
        | .list _ => .error (.ValueMustBeString k value)
        | _ =>
          let v := asString value
          if !reMilestone.Match v then .error (.ValueMustBeMilestone k v)
          else validateMilestone U rest
      else validateMilestone U rest
    | _ => .error (.KeyMustBeString "")

/-- Body of `case "milestone"`. -/
def milestoneCase (U : CaseTables) (k : String) (value : Value)
    (prrApprovers : List String) : Step :=
  match value with
  | .map v =>
    match validateMilestone U v with
    | .nil => .next prrApprovers
    | .error e => .ret e
    | .panic => .panic
  | .null => .next prrApprovers
  | _ => .ret (.ValueMustBeStruct k value)

/-- One iteration of `for key, value := range parsed` in `ValidateStructure`. -/
def checkEntry (U : CaseTables) (listGroups prrApprovers : List String)
    (key : Key) (value : Value) : Step :=
  match key with
  | .str k =>
    let lk := ToLower U k
    if lk = "status" then enumCase reStatus statuses k value prrApprovers
    else if lk = "stage" then enumCase reStages stages k value prrApprovers
    else if lk = "owning-sig" then owningSigCase listGroups k value prrApprovers
    else if lk = "editor" then
      (if value.isNil then .next prrApprovers else stringCase k value prrApprovers)
    else if lk = "title" ∨ lk = "creation-date" ∨ lk = "last-updated" then
      stringCase k value prrApprovers
    else if lk = "participating-sigs" ∨ lk = "replaces" ∨ lk = "superseded-by"
        ∨ lk = "see-also" then
      optionalListCase U listGroups k value prrApprovers
    else if lk = "authors" ∨ lk = "reviewers" ∨ lk = "approvers" then
      listCase U listGroups k value prrApprovers
    else if lk = "prr-approvers" then prrApproversCase k value prrApprovers
    else if lk = "latest-milestone" then latestMilestoneCase k value prrApprovers
    else if lk = "milestone" then milestoneCase U k value prrApprovers
    else .next prrApprovers
  | _ => .ret (.KeyMustBeString "")

/-- How an iteration ends, without the state it leaves. -/
def Step.outcome : Step → Outcome
  | .next _ => .nil
  | .ret e => .error e
  | .panic => .panic

/-- What the rule for its key says of one entry: `nil` when the entry passes. -/
def entryOutcome (U : CaseTables) (listGroups prrApprovers : List String)
    (e : Key × Value) : Outcome :=
  (checkEntry U listGroups prrApprovers e.1 e.2).outcome

/-- The `range` loop of `ValidateStructure`, then `return nil`. -/
def rangeLoop (U : CaseTables) (listGroups : List String) : List String → Doc → Outcome
  | _, [] => .nil
  | prrApprovers, (key, value) :: rest =>
    match checkEntry U listGroups prrApprovers key value with
    | .next prrApprovers2 => rangeLoop U listGroups prrApprovers2 rest
    | .ret e => .error e
    | .panic => .panic

/-- Source function `ValidateStructure`. `FetchGroups` and `FetchPRRApprovers` are what
the calls `api.FetchGroups()` and `api.FetchPRRApprovers()` return (package `api` is
not among the sources); `parsed` lists the entries in `range` order. -/
def ValidateStructure (U : CaseTables) (FetchGroups FetchPRRApprovers : Except Err (List String))
    (parsed : Doc) : Outcome :=
  match mandatoryKeys.find? (fun key => !hasKey parsed key) with
  | some key => .error (.KeyMustBeSpecified key)
  | none =>
    match FetchGroups with
    | .error err => .error err
    | .ok listGroups =>
      match FetchPRRApprovers with
      | .error err => .error err
      | .ok prrApprovers => rangeLoop U listGroups prrApprovers parsed

/-! ## Library `github.com/blang/semver/v4`

`approval.go` calls `semver.ParseTolerant` and `Version.LT`. The functions below follow
the library (release v4.0.0) on rune sequences. -/

/-- Go `unicode.IsSpace`. -/
def isSpace (c : Char) : Bool :=
  c.toNat ∈ [9, 10, 11, 12, 13, 32, 0x85, 0xA0, 0x1680, 0x2028, 0x2029, 0x202F, 0x205F, 0x3000]
    || (0x2000 ≤ c.toNat && c.toNat ≤ 0x200A)

/-- Go `strings.TrimSpace`. -/
def TrimSpace (s : List Char) : List Char :=
  (s.dropWhile isSpace).rdropWhile isSpace

/-- Go `strings.TrimPrefix(s, "v")`. -/
def TrimPrefixV (s : List Char) : List Char :=
  match s with
  | 'v' :: t => t
  | _ => s

/-- Split at the first occurrence of the one-rune separator, when there is one. -/
def cut (sep : Char) : List Char → Option (List Char × List Char)
  | [] => none
  | c :: t =>
    if c = sep then some ([], t)
    else
      match cut sep t with
      | some (a, b) => some (c :: a, b)
      | none => none

/-- Go `strings.SplitN(s, sep, n)` for a one-rune separator and `n >= 0`. -/
def SplitN (sep : Char) : Nat → List Char → List (List Char)
  | 0, _ => []
  | n + 1, s =>
    if n = 0 then [s]
    else
      match cut sep s with
      | none => [s]
      | some (a, b) => a :: SplitN sep n b

/-- Go `strings.Split(s, sep)` for a one-rune separator: no bound on the pieces. -/
def Split (sep : Char) (s : List Char) : List (List Char) :=
  SplitN sep (s.length + 2) s

/-- Go `strings.Join` on rune sequences. -/
def joinRunes (sep : List Char) : List (List Char) → List Char
  | [] => []
  | [a] => a
  | a :: b :: rest => a ++ sep ++ joinRunes sep (b :: rest)

/-- Membership in the constant `numbers`. -/
def isNumber (c : Char) : Bool := decide (48 ≤ c.toNat ∧ c.toNat ≤ 57)

/-- Membership in the constant `alphanum`: letters, `-` and digits. -/
def isAlphanum (c : Char) : Bool :=
  decide (97 ≤ c.toNat ∧ c.toNat ≤ 122) || decide (65 ≤ c.toNat ∧ c.toNat ≤ 90)
    || decide (c = '-') || isNumber c

/-- `containsOnly(s, numbers)`. -/
def containsOnlyNumbers (s : List Char) : Bool := s.all isNumber

/-- `containsOnly(s, alphanum)`. -/
def containsOnlyAlphanum (s : List Char) : Bool := s.all isAlphanum

/-- Go `utf8.RuneLen`: the number of bytes of a rune in a string. -/
def runeLen (c : Char) : Nat :=
  if c.toNat < 0x80 then 1 else if c.toNat < 0x800 then 2 else if c.toNat < 0x10000 then 3 else 4

/-- Go `len(s)`: the number of bytes of a string. -/
def byteLen (s : List Char) : Nat := (s.map runeLen).sum

/-- `hasLeadingZeroes`: `len(s) > 1 && s[0] == '0'`. -/
def hasLeadingZeroes (s : List Char) : Bool :=
  decide (byteLen s > 1) && decide (s.head? = some '0')

/-- The number a digit sequence denotes in base ten. -/
def decimalValue (s : List Char) : Nat :=
  s.foldl (fun acc c => 10 * acc + (c.toNat - 48)) 0

/-- Go `strconv.ParseUint(s, 10, 64)`: fails on the empty string, on a rune that is not
a digit, and on a value that does not fit 64 bits. -/
def ParseUint (s : List Char) : Except String Nat :=
  if s = [] then .error "invalid syntax"
  else if !s.all isNumber then .error "invalid syntax"
  else if decimalValue s < 2 ^ 64 then .ok (decimalValue s)
  else .error "value out of range"

/-- `semver.PRVersion`. -/
structure PRVersion where
  VersionStr : String
  VersionNum : Nat
  IsNum : Bool

/-- `semver.Version`. -/
structure Version where
  Major : Nat
  Minor : Nat
  Patch : Nat
  Pre : List PRVersion
  Build : List String

/-- `semver.NewPRVersion`. -/
def NewPRVersion (s : List Char) : Except String PRVersion :=
  if s.length = 0 then .error "Prerelease is empty"
  else if containsOnlyNumbers s then
    if hasLeadingZeroes s then .error "Numeric PreRelease version must not contain leading zeroes"
    else
      match ParseUint s with
      | .error err => .error err
      | .ok num => .ok { VersionStr := "", VersionNum := num, IsNum := true }
  else if containsOnlyAlphanum s then
    .ok { VersionStr := ⟨s⟩, VersionNum := 0, IsNum := false }
  else .error "Invalid character(s) found in prerelease"

/-- The loop of `semver.Parse` over the prerelease identifiers. -/
def parsePre : List (List Char) → Except String (List PRVersion)
  | [] => .ok []
  | prstr :: rest =>
    match NewPRVersion prstr with
    | .error err => .error err
    | .ok parsedPR =>
      match parsePre rest with
      | .error err => .error err
      | .ok more => .ok (parsedPR :: more)

/-- The loop of `semver.Parse` over the build identifiers. -/
def parseBuild : List (List Char) → Except String (List String)
  | [] => .ok []
  | str :: rest =>
    if str.length = 0 then .error "Build meta data is empty"
    else if !containsOnlyAlphanum str then .error "Invalid character(s) found in build meta data"
    else
      match parseBuild rest with
      | .error err => .error err
      | .ok more => .ok (⟨str⟩ :: more)

/-- A numeric component (major, minor or patch) of `semver.Parse`. -/
def parseNumber (what : String) (part : List Char) : Except String Nat :=
  if !containsOnlyNumbers part then .error ("Invalid character(s) found in " ++ what ++ " number")
  else if hasLeadingZeroes part then .error (what ++ " number must not contain leading zeroes")
  else ParseUint part

/-- `semver.Parse`. -/
def Parse (s : List Char) : Except String Version :=
  if s.length = 0 then .error "Version string empty"
  else
    match SplitN '.' 3 s with
    | [p0, p1, p2] =>
      match parseNumber "Major" p0 with
      | .error err => .error err
      | .ok major =>
        match parseNumber "Minor" p1 with
        | .error err => .error err
        | .ok minor =>
          let patchStr := p2
          let (build, patchStr) :=
            match cut '+' patchStr with
            | some (front, back) => (Split '.' back, front)
            | none => ([], patchStr)
          let (prerelease, patchStr) :=
            match cut '-' patchStr with
            | some (front, back) => (Split '.' back, front)
            | none => ([], patchStr)
          match parseNumber "Patch" patchStr with
          | .error err => .error err
          | .ok patch =>
            match parsePre prerelease with
            | .error err => .error err
            | .ok pre =>
              match parseBuild build with
              | .error err => .error err
              | .ok bld =>
                .ok { Major := major, Minor := minor, Patch := patch, Pre := pre, Build := bld }
    | _ => .error "No Major.Minor.Patch elements found"

/-- The leading-zero removal that `semver.ParseTolerant` applies to each part. -/
def tolerantPart (p : List Char) : List Char :=
  if byteLen p > 1 then
    let p1 := p.dropWhile (fun c => decide (c = '0'))
    if p1.length = 0 || !(p1.take 1).any isNumber then '0' :: p1 else p1
  else p

/-- `semver.ParseTolerant` on rune sequences. -/
def parseTolerantRunes (s : List Char) : Except String Version :=
  let s := TrimSpace s
  let s := TrimPrefixV s
  let parts := (SplitN '.' 3 s).map tolerantPart
  if parts.length < 3 then
    if (parts.getLastD []).any (fun c => decide (c = '+') || decide (c = '-')) then
      .error "Short version cannot contain PreRelease/Build meta data"
    else
      Parse (joinRunes ['.'] (parts ++ List.replicate (3 - parts.length) ['0']))
  else Parse (joinRunes ['.'] parts)

/-- `semver.ParseTolerant`. -/
def ParseTolerant (s : String) : Except String Version := parseTolerantRunes s.data

/-- `PRVersion.Compare`. -/
def PRVersion.Compare (v o : PRVersion) : Int :=
  if v.IsNum && !o.IsNum then -1
  else if !v.IsNum && o.IsNum then 1
  else if v.IsNum && o.IsNum then
    if v.VersionNum = o.VersionNum then 0
    else if v.VersionNum > o.VersionNum then 1
    else -1
  else
    if v.VersionStr = o.VersionStr then 0
    else if stringLess o.VersionStr v.VersionStr then 1
    else -1

/-- The loop of `Version.Compare` over the two prerelease lists, and what follows it. -/
def comparePre : List PRVersion → List PRVersion → Int
  | [], [] => 0
  | [], _ :: _ => -1
  | _ :: _, [] => 1
  | a :: v, b :: o =>
    if a.Compare b = 0 then comparePre v o
    else if a.Compare b = 1 then 1
    else -1

/-- `Version.Compare`. -/
def Version.Compare (v o : Version) : Int :=
  if v.Major ≠ o.Major then (if v.Major > o.Major then 1 else -1)
  else if v.Minor ≠ o.Minor then (if v.Minor > o.Minor then 1 else -1)
  else if v.Patch ≠ o.Patch then (if v.Patch > o.Patch then 1 else -1)
  else if v.Pre.length = 0 ∧ o.Pre.length = 0 then 0
  else if v.Pre.length = 0 ∧ o.Pre.length > 0 then 1
  else if v.Pre.length > 0 ∧ o.Pre.length = 0 then -1
  else comparePre v.Pre o.Pre

/-- `Version.LT`. -/
def Version.LT (v o : Version) : Bool := decide (v.Compare o = -1)

/-! ## approval.go -/

/-- The field `Milestone` of `api.Proposal`. -/
structure Milestone where
  Alpha : String
  Beta : String
  Stable : String

/-- The fields of `api.Proposal` that `approval.go` reads. -/
structure Proposal where
  Number : String
  OwningSIG : String
  Status : String
  Stage : String
  LatestMilestone : String
  Milestone : Milestone

/-- Go `errors.Wrap(err, message)`. -/
def Wrap (err message : String) : String := message ++ ": " ++ err

/-- Source function `isPRRRequired`, returning `(required, missingMilestone, err)`.
The method `kep.IsMissingMilestone` belongs to package `api`, which is not among the
sources, and is taken as a parameter. -/
def isPRRRequired (IsMissingMilestone : Proposal → Bool) (kep : Proposal) :
    Bool × Bool × Option String :=
  let required := true
  let missingMilestone := IsMissingMilestone kep
  if kep.Status ≠ "implementable" then (false, missingMilestone, none)
  else if missingMilestone then (false, missingMilestone, none)
  else
    match ParseTolerant "v1.21" with
    | .error err => (required, missingMilestone, some (Wrap err "creating a SemVer object for PRRs"))
    | .ok prrRequiredAtSemVer =>
      match ParseTolerant kep.LatestMilestone with
      | .error err =>
        (required, missingMilestone, some (Wrap err "creating a SemVer object for latest milestone"))
      | .ok latestSemVer =>
        if latestSemVer.LT prrRequiredAtSemVer then (false, missingMilestone, none)
        else (required, missingMilestone, none)

/-- What `os.Open(name)` gives: an open file (held as its content), an error for which
`os.IsNotExist` holds, or another error. -/
inductive OpenResult where
  | file (content : String)
  | notExist (err : String)
  | failed (err : String)

/-- What `approval.go` uses of a parsed review record (`api.PRRApproval`): the field
`Error` and the method `ApproverForStage`. -/
structure PRRApproval where
  Error : Option String
  ApproverForStage : String → String

/-- What `approval.go` uses of `api.PRRHandler`: the method `Parse`, applied to the open
file, and the field `PRRApprovers`. -/
structure PRRHandler where
  Parse : String → Except String PRRApproval
  PRRApprovers : List String

/-- Modelled from the spec: the helper `api.IsOneOf`, whose package is not among the
sources; the spec has the resolved approver checked to be "a member of the
authorized-approver reference set". -/
def IsOneOf (check : String) (slice : List String) : Bool := decide (check ∈ slice)

/-- What `ValidatePRR` takes from outside `approval.go`: the method
`IsMissingMilestone` of `api.Proposal`, the package-level name `prrsDir` of package
`kepval` (declared in a file that is not among the sources), Go's `filepath.Join`, and
the file system as `os.Open` sees it during the call. -/
structure KepvalEnv where
  IsMissingMilestone : Proposal → Bool
  prrsDir : String
  Join : List String → String
  Open : String → OpenResult

/-- An environment for concrete evaluations: a milestone is missing when the text is
empty, the review records are under `keps/prod-readiness`, path elements are joined by
`/`, and the only file is `keps/prod-readiness/sig-node/1234.yaml`. -/
def sampleEnv : KepvalEnv where
  IsMissingMilestone := fun kep => decide (kep.LatestMilestone = "")
  prrsDir := "keps/prod-readiness"
  Join := fun elems => Join elems "/"
  Open := fun name =>
    if name = "keps/prod-readiness/sig-node/1234.yaml" then .file "approver: john"
    else .notExist ("open " ++ name ++ ": no such file or directory")

/-- A proposal for concrete evaluations: number 1234 of sig-node, with the milestones
v1.21 (alpha) and v1.22 (beta). -/
def sampleKep (Status Stage LatestMilestone : String) : Proposal :=
  ⟨"1234", "sig-node", Status, Stage, LatestMilestone, ⟨"v1.21", "v1.22", ""⟩⟩

/-- A handler for concrete evaluations: every file parses to a record without error that
names john for "v1.21" and nobody otherwise; the approvers are john and wojtek. -/
def sampleHandler : PRRHandler :=
  ⟨fun _ => .ok ⟨none, fun s => if s = "v1.21" then "john" else ""⟩, ["john", "wojtek"]⟩

/-- The errors that `ValidatePRR` returns, one constructor per `return` statement, with
the values that the statement puts into the error. -/
inductive PRRError where
  | checking (err : String)
  | notExist (err : String)
  | couldNotOpen (err prrFilename : String)
  | parsing (err : String)
  | hasError (err prrFilename : String)
  | notApprover (stagePRRApprover : String) (PRRApprovers : List String)

/-- A run of `ValidatePRR`: the error returned (`none` for nil) and the names passed to
`os.Open`, in order. -/
structure PRRRun where
  err : Option PRRError
  opened : List String

/-- The `switch kep.Stage` of `ValidatePRR`: the variable `stageMilestone` after it. -/
def stageMilestone (kep : Proposal) : String :=
  if kep.Stage = "alpha" then kep.Milestone.Alpha
  else if kep.Stage = "beta" then kep.Milestone.Beta
  else if kep.Stage = "stable" then kep.Milestone.Stable
  else ""

/-- The value of `prrFilename` that `ValidatePRR` passes to `os.Open`. The source joins
the package-level `prrsDir`; the parameter `prrDir` does not occur in the body. -/
def prrFilename (E : KepvalEnv) (kep : Proposal) : String :=
  E.Join [E.prrsDir, kep.OwningSIG, kep.Number ++ ".yaml"]

/-- Source function `ValidatePRR`. -/
def ValidatePRR (E : KepvalEnv) (kep : Proposal) (h : PRRHandler) (prrDir : String) : PRRRun :=
  match isPRRRequired E.IsMissingMilestone kep with
  | (_, _, some err) => ⟨some (.checking err), []⟩
  | (requiredPRRApproval, _, none) =>
    if !requiredPRRApproval then ⟨none, []⟩
    else
      match E.Open (prrFilename E kep) with
      | .notExist err => ⟨some (.notExist err), [prrFilename E kep]⟩
      | .failed err => ⟨some (.couldNotOpen err (prrFilename E kep)), [prrFilename E kep]⟩
      | .file prrFile =>
        match h.Parse prrFile with
        | .error prrParseErr => ⟨some (.parsing prrParseErr), [prrFilename E kep]⟩
        | .ok prr =>
          match prr.Error with
          | some err => ⟨some (.hasError err (prrFilename E kep)), [prrFilename E kep]⟩
          | none =>
            let stagePRRApprover := prr.ApproverForStage (stageMilestone kep)
            let validApprover := IsOneOf stagePRRApprover h.PRRApprovers
            if !validApprover then
              ⟨some (.notApprover stagePRRApprover h.PRRApprovers), [prrFilename E kep]⟩
            else ⟨none, [prrFilename E kep]⟩

/-! ## validate.go -/

/-- The three results of a call of `kepval.ValidateRepository`, which is not among the
sources: the warnings, the validation errors (the result that the commented-out lines of
`runValidate` name `valErrs`), and the error. -/
structure RepositoryReport where
  warnings : List String
  valErrs : List String
  err : Option String

/-- Source function `runValidate`: the first two results are discarded. -/
def runValidate (ValidateRepository : String → RepositoryReport) (RepoPath : String) :
    Option String :=
  match (ValidateRepository RepoPath).err with
  | some err => some err
  | none => none

/-- Is the key a string (`k, ok := key.(string)`). -/
def Key.isString : Key → Bool
  | .str _ => true
  | _ => false

/-- The canonical field names: the `case` labels of the `switch` in `ValidateStructure`. -/
def canonicalFields : List String :=
  ["status", "stage", "owning-sig", "editor", "title", "creation-date", "last-updated",
   "participating-sigs", "replaces", "superseded-by", "see-also", "authors", "reviewers",
   "approvers", "prr-approvers", "latest-milestone", "milestone"]

/-! ## Theorems -/

theorem runesLess_irrefl (a : List Char) : runesLess a a = false := by
  induction a with
  | nil => rfl
  | cons c t ih => simp [runesLess, ih]

theorem runesLess_asymm : ∀ (a b : List Char), runesLess a b = true → runesLess b a = false
  | [], [] => by simp [runesLess]
  | [], _ :: _ => by simp [runesLess]
  | _ :: _, [] => by simp [runesLess]
  | c :: s, d :: t => by
    intro h
    simp only [runesLess] at h ⊢
    by_cases h1 : c.toNat < d.toNat
    · have h2 : ¬ d.toNat < c.toNat := by omega
      simp [h1, h2]
    · by_cases h2 : d.toNat < c.toNat
      · simp [h1, h2] at h
      · simp only [h1, h2, if_false] at h ⊢
        exact runesLess_asymm s t h

theorem runesLess_trans : ∀ (a b c : List Char),
    runesLess a b = true → runesLess b c = true → runesLess a c = true
  | [], [], _ => by simp [runesLess]
  | [], _ :: _, [] => by simp [runesLess]
  | [], _ :: _, _ :: _ => by simp [runesLess]
  | _ :: _, [], _ => by simp [runesLess]
  | _ :: _, _ :: _, [] => by simp [runesLess]
  | x :: s, y :: t, z :: u => by
    intro h1 h2
    simp only [runesLess] at h1 h2 ⊢
    by_cases hxy : x.toNat < y.toNat
    · by_cases hyz : y.toNat < z.toNat
      · have : x.toNat < z.toNat := by omega
        simp [this]
      · by_cases hzy : z.toNat < y.toNat
        · simp [hyz, hzy] at h2
        · have : x.toNat < z.toNat := by omega
          simp [this]
    · by_cases hyx : y.toNat < x.toNat
      · simp [hxy, hyx] at h1
      · simp only [hxy, hyx, if_false] at h1
        by_cases hyz : y.toNat < z.toNat
        · have : x.toNat < z.toNat := by omega
          simp [this]
        · by_cases hzy : z.toNat < y.toNat
          · simp [hyz, hzy] at h2
          · simp only [hyz, hzy, if_false] at h2
            have e1 : ¬ x.toNat < z.toNat := by omega
            have e2 : ¬ z.toNat < x.toNat := by omega
            simp only [e1, e2, if_false]
            exact runesLess_trans s t u h1 h2

theorem char_eq_of_toNat_eq {c d : Char} (h : c.toNat = d.toNat) : c = d := by
  apply Char.ext
  cases c with | mk cv cp =>
  cases d with | mk dv dp =>
  simp only [Char.toNat] at h
  cases cv with | mk cf =>
  cases dv with | mk df =>
  simp only [UInt32.toNat] at h
  have : cf = df := BitVec.eq_of_toNat_eq h
  simp [this]

theorem runesLess_total : ∀ (a b : List Char),
    runesLess a b = false → runesLess b a = false → a = b
  | [], [] => by simp
  | [], _ :: _ => by simp [runesLess]
  | _ :: _, [] => by simp [runesLess]
  | c :: s, d :: t => by
    intro h1 h2
    simp only [runesLess] at h1 h2
    by_cases hcd : c.toNat < d.toNat
    · simp [hcd] at h1
    · by_cases hdc : d.toNat < c.toNat
      · simp [hdc] at h2
      · simp only [hcd, hdc, if_false] at h1 h2
        have e : c = d := char_eq_of_toNat_eq (by omega)
        rw [e, runesLess_total s t h1 h2]

theorem stringGE_refl (a : String) : stringGE a a = true := by
  simp [stringGE, stringLess, runesLess_irrefl]

theorem stringGE_total (a b : String) : stringGE a b = true ∨ stringGE b a = true := by
  simp only [stringGE, stringLess, Bool.not_eq_true', ]
  cases h : runesLess a.data b.data with
  | false => exact Or.inl rfl
  | true => exact Or.inr (runesLess_asymm _ _ h)

theorem stringGE_antisymm {a b : String} (h1 : stringGE a b = true) (h2 : stringGE b a = true) :
    a = b := by
  simp only [stringGE, stringLess, Bool.not_eq_true'] at h1 h2
  exact String.ext (runesLess_total _ _ h1 h2)

theorem stringGE_trans {a b c : String} (h1 : stringGE a b = true) (h2 : stringGE b c = true) :
    stringGE a c = true := by
  simp only [stringGE, stringLess, Bool.not_eq_true'] at h1 h2 ⊢
  cases h : runesLess a.data c.data with
  | false => rfl
  | true =>
    exfalso
    cases hcb : runesLess c.data b.data with
    | true =>
      have := runesLess_trans _ _ _ h hcb
      rw [h1] at this
      exact Bool.false_ne_true this
    | false =>
      have e := runesLess_total _ _ h2 hcb
      rw [e] at h1
      rw [h1] at h
      exact Bool.false_ne_true h

theorem sortStrings_sorted (a : List String) : (sortStrings a).Sorted sortRel := by
  haveI : IsTotal String sortRel := ⟨fun a b => stringGE_total b a⟩
  haveI : IsTrans String sortRel := ⟨fun _ _ _ h1 h2 => stringGE_trans h2 h1⟩
  exact List.sorted_insertionSort sortRel a

theorem sortStrings_perm (a : List String) : (sortStrings a).Perm a :=
  List.perm_insertionSort sortRel a

theorem mem_sortStrings {a : List String} {x : String} : x ∈ sortStrings a ↔ x ∈ a :=
  (sortStrings_perm a).mem_iff

theorem sortStrings_idem (a : List String) : sortStrings (sortStrings a) = sortStrings a := by
  exact List.Sorted.insertionSort_eq (sortStrings_sorted a)

/-- The loop of `sort.Search` ends by `i >= j` before `j - i` iterations are over: more
fuel does not change what it returns. -/
theorem searchLoop_fuel (f : Nat → Bool) :
    ∀ (fuel1 fuel2 i j : Nat), j - i ≤ fuel1 → j - i ≤ fuel2 →
      searchLoop f fuel1 i j = searchLoop f fuel2 i j := by
  intro fuel1
  induction fuel1 with
  | zero =>
    intro fuel2 i j h1 _
    have hij : ¬ i < j := by omega
    cases fuel2 with
    | zero => rfl
    | succ n => simp [searchLoop, hij]
  | succ n ih =>
    intro fuel2 i j h1 h2
    cases fuel2 with
    | zero =>
      have hij : ¬ i < j := by omega
      simp [searchLoop, hij]
    | succ m =>
      simp only [searchLoop]
      by_cases hij : i < j
      · simp only [hij, if_true]
        cases f ((i + j) / 2) with
        | false =>
          simp only [Bool.not_false, if_true]
          exact ih m _ _ (by omega) (by omega)
        | true =>
          simp only [Bool.not_true, Bool.false_eq_true, if_false]
          exact ih m _ _ (by omega) (by omega)
      · simp only [hij, if_false]

/-- What `sort.Search` returns when `f` is false up to some index and true from it on:
the loop keeps `f` false below `i` and true from `j`. -/
theorem searchLoop_spec (f : Nat → Bool) (n : Nat)
    (hmono : ∀ a b, a ≤ b → b < n → f a = true → f b = true) :
    ∀ (fuel i j : Nat), j - i ≤ fuel → i ≤ j → j ≤ n →
      (∀ k, k < i → f k = false) → (∀ k, j ≤ k → k < n → f k = true) →
      (searchLoop f fuel i j ≤ n ∧ (∀ k, k < searchLoop f fuel i j → f k = false) ∧
        (∀ k, searchLoop f fuel i j ≤ k → k < n → f k = true)) := by
  intro fuel
  induction fuel with
  | zero =>
    intro i j hf hij hjn hlo hhi
    have e : i = j := by omega
    subst e
    exact ⟨hjn, hlo, hhi⟩
  | succ fuel ih =>
    intro i j hf hij hjn hlo hhi
    unfold searchLoop
    by_cases hlt : i < j
    · simp only [hlt, if_true]
      cases hfh : f ((i + j) / 2) with
      | false =>
        simp only [Bool.not_false, if_true]
        refine ih _ _ (by omega) (by omega) hjn ?_ hhi
        intro k hk
        cases hfk : f k with
        | false => rfl
        | true =>
          have := hmono k ((i + j) / 2) (by omega) (by omega) hfk
          rw [hfh] at this
          exact absurd this Bool.false_ne_true
      | true =>
        simp only [Bool.not_true, Bool.false_eq_true, if_false]
        refine ih _ _ (by omega) (by omega) (by omega) hlo ?_
        intro k hk hkn
        exact hmono _ k hk hkn hfh
    · have e : i = j := by omega
      subst e
      simp only [hlt, if_false]
      exact ⟨hjn, hlo, hhi⟩

theorem getD_sorted_le {a : List String} (hs : a.Sorted sortRel) {i j : Nat}
    (hij : i ≤ j) (hj : j < a.length) : stringGE (a.getD j "") (a.getD i "") = true := by
  rcases Nat.eq_or_lt_of_le hij with e | hlt
  · subst e
    exact stringGE_refl _
  · have hi : i < a.length := by omega
    rw [List.getD_eq_getElem _ _ hj, List.getD_eq_getElem _ _ hi]
    exact (List.pairwise_iff_getElem.mp hs) i j hi hj hlt

/-- On a sorted slice the binary search finds exactly the elements of the slice. -/
theorem notFound_sorted {a : List String} (hs : a.Sorted sortRel) (v : String) :
    notFound a v = false ↔ v ∈ a := by
  have hspec := searchLoop_spec (fun i => stringGE (a.getD i "") v) a.length
    (fun x y hxy hy hx => stringGE_trans (getD_sorted_le hs hxy hy) hx)
    a.length 0 a.length (by omega) (by omega) (le_refl _)
    (fun k hk => absurd hk (Nat.not_lt_zero k)) (fun k hk hkn => absurd hkn (by omega))
  obtain ⟨_, hlo, hhi⟩ := hspec
  simp only [notFound, SearchStrings, Search, Bool.or_eq_false_iff, decide_eq_false_iff_not,
    not_le, ne_eq, not_not]
  constructor
  · rintro ⟨hlt, heq⟩
    rw [List.getD_eq_getElem _ _ hlt] at heq
    rw [← heq]
    exact List.getElem_mem _
  · intro hv
    obtain ⟨k, hk, hkv⟩ := List.getElem_of_mem hv
    have hfk : stringGE (a.getD k "") v = true := by
      rw [List.getD_eq_getElem _ _ hk, hkv]
      exact stringGE_refl v
    have hrk : searchLoop (fun i => stringGE (a.getD i "") v) a.length 0 a.length ≤ k := by
      by_contra hcon
      have := hlo k (by omega)
      simp only at this
      rw [hfk] at this
      exact absurd this (by decide)
    have hrn : searchLoop (fun i => stringGE (a.getD i "") v) a.length 0 a.length < a.length := by
      omega
    refine ⟨hrn, ?_⟩
    have h1 := hhi _ (le_refl _) hrn
    simp only at h1
    have h2 := getD_sorted_le hs hrk hk
    rw [List.getD_eq_getElem _ _ hk, hkv] at h2
    exact stringGE_antisymm h1 h2

/-- After `sort.Strings`, the search decides membership in the slice as it was supplied. -/
theorem notFound_sortStrings (a : List String) (v : String) :
    notFound (sortStrings a) v = false ↔ v ∈ a := by
  rw [notFound_sorted (sortStrings_sorted a), mem_sortStrings]

/-- A hit of the search is an element of the slice, sorted or not. -/
theorem mem_of_notFound_false {a : List String} {v : String} (h : notFound a v = false) :
    v ∈ a := by
  simp only [notFound, Bool.or_eq_false_iff, decide_eq_false_iff_not,
    not_le, ne_eq, not_not] at h
  obtain ⟨hlt, heq⟩ := h
  rw [List.getD_eq_getElem _ _ hlt] at heq
  rw [← heq]
  exact List.getElem_mem _

theorem checkEntry_str (U : CaseTables) (g A : List String) (k : String) (value : Value) :
    checkEntry U g A (.str k) value =
    (if ToLower U k = "status" then enumCase reStatus statuses k value A
    else if ToLower U k = "stage" then enumCase reStages stages k value A
    else if ToLower U k = "owning-sig" then owningSigCase g k value A
    else if ToLower U k = "editor" then
      (if value.isNil then .next A else stringCase k value A)
    else if ToLower U k = "title" ∨ ToLower U k = "creation-date" ∨ ToLower U k = "last-updated" then
      stringCase k value A
    else if ToLower U k = "participating-sigs" ∨ ToLower U k = "replaces" ∨ ToLower U k = "superseded-by"
        ∨ ToLower U k = "see-also" then
      optionalListCase U g k value A
    else if ToLower U k = "authors" ∨ ToLower U k = "reviewers" ∨ ToLower U k = "approvers" then
      listCase U g k value A
    else if ToLower U k = "prr-approvers" then prrApproversCase k value A
    else if ToLower U k = "latest-milestone" then latestMilestoneCase k value A
    else if ToLower U k = "milestone" then milestoneCase U k value A
    else .next A) := rfl

theorem enumCase_next {re : Regexp} {al : List String} {k : String} {v : Value}
    {A p : List String} (h : enumCase re al k v A = .next p) : p = A := by
  cases v <;> simp only [enumCase] at h <;> (try split_ifs at h) <;> cases h <;> rfl

theorem enumCase_outcome (re : Regexp) (al : List String) (k : String) (v : Value)
    (A B : List String) : (enumCase re al k v A).outcome = (enumCase re al k v B).outcome := by
  cases v <;> simp only [enumCase] <;> (try split_ifs) <;> rfl

theorem owningSigCase_next {g : List String} {k : String} {v : Value}
    {A p : List String} (h : owningSigCase g k v A = .next p) : p = A := by
  cases v <;> simp only [owningSigCase] at h <;> (try split_ifs at h) <;> cases h <;> rfl

theorem owningSigCase_outcome (g : List String) (k : String) (v : Value)
    (A B : List String) : (owningSigCase g k v A).outcome = (owningSigCase g k v B).outcome := by
  cases v <;> simp only [owningSigCase] <;> (try split_ifs) <;> rfl

theorem stringCase_next {k : String} {v : Value}
    {A p : List String} (h : stringCase k v A = .next p) : p = A := by
  cases v <;> simp only [stringCase] at h <;> (try split_ifs at h) <;> cases h <;> rfl

theorem stringCase_outcome (k : String) (v : Value)
    (A B : List String) : (stringCase k v A).outcome = (stringCase k v B).outcome := by
  cases v <;> simp only [stringCase] <;> (try split_ifs) <;> rfl

theorem listCase_next {U : CaseTables} {g : List String} {k : String} {v : Value}
    {A p : List String} (h : listCase U g k v A = .next p) : p = A := by
  cases v <;> simp only [listCase] at h <;> (try split_ifs at h) <;> (try split at h) <;>
    cases h <;> rfl

theorem listCase_outcome (U : CaseTables) (g : List String) (k : String) (v : Value)
    (A B : List String) : (listCase U g k v A).outcome = (listCase U g k v B).outcome := by
  cases v <;> simp only [listCase] <;> (try split_ifs) <;> (try split) <;> rfl

theorem optionalListCase_next {U : CaseTables} {g : List String} {k : String} {v : Value}
    {A p : List String} (h : optionalListCase U g k v A = .next p) : p = A := by
  cases v <;> simp only [optionalListCase, Value.isNil] at h <;> (try split_ifs at h) <;>
    first
      | exact listCase_next h
      | (cases h; rfl)

theorem optionalListCase_outcome (U : CaseTables) (g : List String) (k : String) (v : Value)
    (A B : List String) :
    (optionalListCase U g k v A).outcome = (optionalListCase U g k v B).outcome := by
  cases v <;> simp only [optionalListCase, Value.isNil] <;> (try split_ifs) <;>
    first
      | rfl
      | exact listCase_outcome U g k _ A B

theorem latestMilestoneCase_next {k : String} {v : Value}
    {A p : List String} (h : latestMilestoneCase k v A = .next p) : p = A := by
  cases v <;> simp only [latestMilestoneCase] at h <;> (try split_ifs at h) <;> cases h <;> rfl

theorem latestMilestoneCase_outcome (k : String) (v : Value) (A B : List String) :
    (latestMilestoneCase k v A).outcome = (latestMilestoneCase k v B).outcome := by
  cases v <;> simp only [latestMilestoneCase] <;> (try split_ifs) <;> rfl

theorem milestoneCase_next {U : CaseTables} {k : String} {v : Value}
    {A p : List String} (h : milestoneCase U k v A = .next p) : p = A := by
  cases v <;> simp only [milestoneCase] at h <;> (try split at h) <;> cases h <;> rfl

theorem milestoneCase_outcome (U : CaseTables) (k : String) (v : Value) (A B : List String) :
    (milestoneCase U k v A).outcome = (milestoneCase U k v B).outcome := by
  cases v <;> simp only [milestoneCase] <;> (try split) <;> rfl

theorem prrApproversCase_next {k : String} {v : Value}
    {A p : List String} (h : prrApproversCase k v A = .next p) : p = A ∨ p = sortStrings A := by
  cases v <;> simp only [prrApproversCase] at h <;> (try split at h) <;> cases h <;>
    first
      | exact Or.inl rfl
      | exact Or.inr rfl

theorem prrApproversCase_outcome (k : String) (v : Value) (A : List String) :
    (prrApproversCase k v (sortStrings A)).outcome = (prrApproversCase k v A).outcome := by
  cases v <;> simp only [prrApproversCase, sortStrings_idem] <;> (try split) <;> rfl

/-- Case analysis on the `switch` of `ValidateStructure`, for two runs of one iteration
that differ in the contents of `prrApprovers`. -/
theorem checkEntry_str_cases (R : Step → Step → Prop) (U : CaseTables) (g A B : List String)
    (k : String) (v : Value)
    (h1 : R (enumCase reStatus statuses k v A) (enumCase reStatus statuses k v B))
    (h2 : R (enumCase reStages stages k v A) (enumCase reStages stages k v B))
    (h3 : R (owningSigCase g k v A) (owningSigCase g k v B))
    (h4 : R (.next A) (.next B))
    (h5 : R (stringCase k v A) (stringCase k v B))
    (h6 : R (optionalListCase U g k v A) (optionalListCase U g k v B))
    (h7 : R (listCase U g k v A) (listCase U g k v B))
    (h8 : R (prrApproversCase k v A) (prrApproversCase k v B))
    (h9 : R (latestMilestoneCase k v A) (latestMilestoneCase k v B))
    (h10 : R (milestoneCase U k v A) (milestoneCase U k v B)) :
    R (checkEntry U g A (.str k) v) (checkEntry U g B (.str k) v) := by
  rw [checkEntry_str, checkEntry_str]
  by_cases c1 : ToLower U k = "status"
  · rw [if_pos c1, if_pos c1]; exact h1
  rw [if_neg c1, if_neg c1]
  by_cases c2 : ToLower U k = "stage"
  · rw [if_pos c2, if_pos c2]; exact h2
  rw [if_neg c2, if_neg c2]
  by_cases c3 : ToLower U k = "owning-sig"
  · rw [if_pos c3, if_pos c3]; exact h3
  rw [if_neg c3, if_neg c3]
  by_cases c4 : ToLower U k = "editor"
  · rw [if_pos c4, if_pos c4]
    by_cases c : v.isNil = true
    · rw [if_pos c, if_pos c]; exact h4
    · rw [if_neg c, if_neg c]; exact h5
  rw [if_neg c4, if_neg c4]
  by_cases c5 : ToLower U k = "title" ∨ ToLower U k = "creation-date"
      ∨ ToLower U k = "last-updated"
  · rw [if_pos c5, if_pos c5]; exact h5
  rw [if_neg c5, if_neg c5]
  by_cases c6 : ToLower U k = "participating-sigs" ∨ ToLower U k = "replaces"
      ∨ ToLower U k = "superseded-by" ∨ ToLower U k = "see-also"
  · rw [if_pos c6, if_pos c6]; exact h6
  rw [if_neg c6, if_neg c6]
  by_cases c7 : ToLower U k = "authors" ∨ ToLower U k = "reviewers" ∨ ToLower U k = "approvers"
  · rw [if_pos c7, if_pos c7]; exact h7
  rw [if_neg c7, if_neg c7]
  by_cases c8 : ToLower U k = "prr-approvers"
  · rw [if_pos c8, if_pos c8]; exact h8
  rw [if_neg c8, if_neg c8]
  by_cases c9 : ToLower U k = "latest-milestone"
  · rw [if_pos c9, if_pos c9]; exact h9
  rw [if_neg c9, if_neg c9]
  by_cases c10 : ToLower U k = "milestone"
  · rw [if_pos c10, if_pos c10]; exact h10
  rw [if_neg c10, if_neg c10]
  exact h4

/-- An iteration leaves `prrApprovers` as it was or sorted. -/
theorem checkEntry_next (U : CaseTables) (g : List String) (key : Key) (v : Value)
    (A : List String) :
    ∀ p, checkEntry U g A key v = .next p → p = A ∨ p = sortStrings A := by
  cases key with
  | str k =>
    exact checkEntry_str_cases (fun s _ => ∀ p, s = .next p → p = A ∨ p = sortStrings A)
      U g A A k v
      (fun _ h => Or.inl (enumCase_next h)) (fun _ h => Or.inl (enumCase_next h))
      (fun _ h => Or.inl (owningSigCase_next h))
      (fun _ h => by cases h; exact Or.inl rfl)
      (fun _ h => Or.inl (stringCase_next h)) (fun _ h => Or.inl (optionalListCase_next h))
      (fun _ h => Or.inl (listCase_next h)) (fun _ h => prrApproversCase_next h)
      (fun _ h => Or.inl (latestMilestoneCase_next h)) (fun _ h => Or.inl (milestoneCase_next h))
  | int i => intro p h; cases h
  | bool b => intro p h; cases h
  | null => intro p h; cases h

/-- Sorting `prrApprovers` beforehand does not change how an iteration ends. -/
theorem checkEntry_outcome_sorted (U : CaseTables) (g : List String) (key : Key) (v : Value)
    (A : List String) :
    (checkEntry U g (sortStrings A) key v).outcome = (checkEntry U g A key v).outcome := by
  cases key with
  | str k =>
    exact checkEntry_str_cases (fun s t => s.outcome = t.outcome) U g (sortStrings A) A k v
      (enumCase_outcome _ _ _ _ _ _) (enumCase_outcome _ _ _ _ _ _)
      (owningSigCase_outcome _ _ _ _ _) rfl (stringCase_outcome _ _ _ _)
      (optionalListCase_outcome _ _ _ _ _ _) (listCase_outcome _ _ _ _ _ _)
      (prrApproversCase_outcome _ _ _) (latestMilestoneCase_outcome _ _ _ _)
      (milestoneCase_outcome _ _ _ _ _)
  | int i => rfl
  | bool b => rfl
  | null => rfl

theorem rangeLoop_sorted (U : CaseTables) (g : List String) :
    ∀ (doc : Doc) (A : List String),
      rangeLoop U g (sortStrings A) doc = rangeLoop U g A doc := by
  intro doc
  induction doc with
  | nil => intro A; rfl
  | cons e rest ih =>
    intro A
    obtain ⟨key, v⟩ := e
    have ho := checkEntry_outcome_sorted U g key v A
    have hs1 := checkEntry_next U g key v (sortStrings A)
    have hs2 := checkEntry_next U g key v A
    simp only [rangeLoop]
    cases h1 : checkEntry U g (sortStrings A) key v with
    | next p1 =>
      cases h2 : checkEntry U g A key v with
      | next p2 =>
        have e1 : p1 = sortStrings A := by
          rcases hs1 p1 h1 with e | e
          · exact e
          · rw [e, sortStrings_idem]
        subst e1
        rcases hs2 p2 h2 with e | e
        · subst e; exact ih _
        · subst e; rfl
      | ret x => rw [h1, h2] at ho; cases ho
      | panic => rw [h1, h2] at ho; cases ho
    | ret x =>
      cases h2 : checkEntry U g A key v with
      | next p2 => rw [h1, h2] at ho; cases ho
      | ret y => rw [h1, h2] at ho; simp only [Step.outcome] at ho; exact ho
      | panic => rw [h1, h2] at ho; cases ho
    | panic =>
      cases h2 : checkEntry U g A key v with
      | next p2 => rw [h1, h2] at ho; cases ho
      | ret y => rw [h1, h2] at ho; cases ho
      | panic => rfl

/-- The loop returns what the first entry that does not pass its rule yields. -/
theorem rangeLoop_cons (U : CaseTables) (g A : List String) (e : Key × Value) (rest : Doc) :
    rangeLoop U g A (e :: rest) =
      match entryOutcome U g A e with
      | .nil => rangeLoop U g A rest
      | .error x => .error x
      | .panic => .panic := by
  obtain ⟨key, v⟩ := e
  simp only [rangeLoop, entryOutcome]
  cases h : checkEntry U g A key v with
  | next p =>
    simp only [Step.outcome]
    rcases checkEntry_next U g key v A p h with e | e
    · rw [e]
    · rw [e, rangeLoop_sorted]
  | ret x => rfl
  | panic => rfl

theorem rangeLoop_pass (U : CaseTables) (g A : List String) (doc : Doc)
    (h : ∀ e ∈ doc, entryOutcome U g A e = .nil) : rangeLoop U g A doc = .nil := by
  induction doc with
  | nil => rfl
  | cons e rest ih =>
    rw [rangeLoop_cons, h e (List.mem_cons_self _ _)]
    exact ih (fun x hx => h x (List.mem_cons_of_mem _ hx))

theorem rangeLoop_single (U : CaseTables) (g A : List String) (pre post : Doc)
    (e : Key × Value)
    (hpre : ∀ x ∈ pre, entryOutcome U g A x = .nil)
    (hpost : ∀ x ∈ post, entryOutcome U g A x = .nil) :
    rangeLoop U g A (pre ++ e :: post) = entryOutcome U g A e := by
  induction pre with
  | nil =>
    rw [List.nil_append, rangeLoop_cons, rangeLoop_pass U g A post hpost]
    cases entryOutcome U g A e <;> rfl
  | cons x rest ih =>
    rw [List.cons_append, rangeLoop_cons, hpre x (List.mem_cons_self _ _)]
    exact ih (fun y hy => hpre y (List.mem_cons_of_mem _ hy))

theorem ValidateStructure_of_keys (U : CaseTables) (g A : List String) (doc : Doc)
    (ht : hasKey doc "title" = true) (ho : hasKey doc "owning-sig" = true) :
    ValidateStructure U (.ok g) (.ok A) doc = rangeLoop U g A doc := by
  simp [ValidateStructure, mandatoryKeys, List.find?, ht, ho]

/-- When the mandatory keys are there and every other entry passes its rule,
`ValidateStructure` returns what the rule says of the remaining entry, wherever the
`range` loop meets it. -/
theorem ValidateStructure_single (U : CaseTables) (g A : List String) (pre post : Doc)
    (e : Key × Value)
    (ht : hasKey (pre ++ e :: post) "title" = true)
    (ho : hasKey (pre ++ e :: post) "owning-sig" = true)
    (hpre : ∀ x ∈ pre, entryOutcome U g A x = .nil)
    (hpost : ∀ x ∈ post, entryOutcome U g A x = .nil) :
    ValidateStructure U (.ok g) (.ok A) (pre ++ e :: post) = entryOutcome U g A e := by
  rw [ValidateStructure_of_keys U g A _ ht ho]
  exact rangeLoop_single U g A pre post e hpre hpost

/-- The pieces that a pattern without special runes compiles to. -/
theorem matchPieces_literal (p : List Char) :
    ∀ s : List Char, matchPieces (p.map (fun c => Piece.one (.lit c))) s = true ↔ p <+: s := by
  induction p with
  | nil => intro s; simp [matchPieces]
  | cons c p ih =>
    intro s
    cases s with
    | nil => simp [matchPieces]
    | cons x t =>
      simp only [List.map_cons, matchPieces, CharClass.test, Bool.and_eq_true, decide_eq_true_eq,
        ih t, List.cons_prefix_cons]
      constructor
      · rintro ⟨h1, h2⟩; exact ⟨h1.symm, h2⟩
      · rintro ⟨h1, h2⟩; exact ⟨h1.symm, h2⟩

theorem matchAnywhere_iff (re : Regexp) :
    ∀ s : List Char, matchAnywhere re s = true ↔ ∃ t, t <:+ s ∧ matchHere re t = true := by
  intro s
  induction s with
  | nil =>
    simp only [matchAnywhere, List.suffix_nil]
    constructor
    · intro h; exact ⟨[], rfl, h⟩
    · rintro ⟨t, rfl, h⟩; exact h
  | cons x s ih =>
    simp only [matchAnywhere, Bool.or_eq_true, ih, List.suffix_cons_iff]
    constructor
    · rintro (h | ⟨t, ht, h⟩)
      · exact ⟨_, Or.inl rfl, h⟩
      · exact ⟨t, Or.inr ht, h⟩
    · rintro ⟨t, (rfl | ht), h⟩
      · exact Or.inl h
      · exact Or.inr ⟨t, ht, h⟩

theorem reStatus_eq : reStatus = statuses.map (fun st => st.data.map (fun c => Piece.one (.lit c))) := by
  decide

theorem reStages_eq : reStages = stages.map (fun st => st.data.map (fun c => Piece.one (.lit c))) := by
  decide

theorem reMilestone_eq : reMilestone =
    [[.one (.lit 'v'), .one (.lit '1'), .one (.lit '\\'), .one .anyNotNL,
      .one (.range '1' '9'), .star (.range '0' '9')]] := by
  decide

/-- An alternation of plain words matches exactly the texts that contain one of the words. -/
theorem match_words (words : List String) (s : String) :
    Regexp.Match (words.map (fun st => st.data.map (fun c => Piece.one (.lit c)))) s = true ↔
      ∃ st ∈ words, st.data <:+: s.data := by
  simp only [Regexp.Match, matchAnywhere_iff, matchHere, List.any_eq_true, List.mem_map]
  constructor
  · rintro ⟨t, ht, alt, ⟨st, hst, rfl⟩, hp⟩
    exact ⟨st, hst, List.infix_iff_prefix_suffix.mpr ⟨t, (matchPieces_literal _ _).mp hp, ht⟩⟩
  · rintro ⟨st, hst, hi⟩
    obtain ⟨t, hp, ht⟩ := List.infix_iff_prefix_suffix.mp hi
    exact ⟨t, ht, _, ⟨st, hst, rfl⟩, (matchPieces_literal _ _).mpr hp⟩

theorem reStatus_match (s : String) :
    reStatus.Match s = true ↔ ∃ st ∈ statuses, st.data <:+: s.data := by
  rw [reStatus_eq]; exact match_words statuses s

/-- The milestone pattern, as the source has it, matches only text with a backslash in it. -/
theorem reMilestone_needs_backslash (s : String) (h : reMilestone.Match s = true) :
    '\\' ∈ s.data := by
  rw [reMilestone_eq] at h
  simp only [Regexp.Match, matchAnywhere_iff] at h
  obtain ⟨t, ht, hm⟩ := h
  have : '\\' ∈ t := by
    simp only [matchHere, List.any_cons, List.any_nil, Bool.or_false] at hm
    rcases t with _ | ⟨a, _ | ⟨b, _ | ⟨c, t⟩⟩⟩
    · simp [matchPieces] at hm
    · simp [matchPieces] at hm
    · simp [matchPieces] at hm
    · simp only [matchPieces, CharClass.test, Bool.and_eq_true, decide_eq_true_eq] at hm
      rw [hm.2.2.1]
      simp
  exact ht.subset this

theorem checkEntry_status {U : CaseTables} {k : String} (h : ToLower U k = "status")
    (g A : List String) (v : Value) :
    checkEntry U g A (.str k) v = enumCase reStatus statuses k v A := by
  rw [checkEntry_str, h]; rfl

theorem checkEntry_owningSig {U : CaseTables} {k : String} (h : ToLower U k = "owning-sig")
    (g A : List String) (v : Value) :
    checkEntry U g A (.str k) v = owningSigCase g k v A := by
  rw [checkEntry_str, h]; rfl

theorem checkEntry_authors {U : CaseTables} {k : String}
    (h : ToLower U k = "authors" ∨ ToLower U k = "reviewers" ∨ ToLower U k = "approvers")
    (g A : List String) (v : Value) :
    checkEntry U g A (.str k) v = listCase U g k v A := by
  rw [checkEntry_str]
  rcases h with h | h | h <;> rw [h] <;> rfl

theorem checkEntry_prrApprovers {U : CaseTables} {k : String} (h : ToLower U k = "prr-approvers")
    (g A : List String) (v : Value) :
    checkEntry U g A (.str k) v = prrApproversCase k v A := by
  rw [checkEntry_str, h]; rfl

theorem checkEntry_latestMilestone {U : CaseTables} {k : String}
    (h : ToLower U k = "latest-milestone") (g A : List String) (v : Value) :
    checkEntry U g A (.str k) v = latestMilestoneCase k v A := by
  rw [checkEntry_str, h]; rfl

theorem checkEntry_milestone {U : CaseTables} {k : String}
    (h : ToLower U k = "milestone") (g A : List String) (v : Value) :
    checkEntry U g A (.str k) v = milestoneCase U k v A := by
  rw [checkEntry_str, h]; rfl

theorem cut_none (sep : Char) : ∀ s : List Char, (∀ c ∈ s, c ≠ sep) → cut sep s = none
  | [], _ => rfl
  | c :: t, h => by
    have hc : c ≠ sep := h c (List.mem_cons_self _ _)
    have ht := cut_none sep t (fun x hx => h x (List.mem_cons_of_mem _ hx))
    simp [cut, hc, ht]

theorem cut_append (sep : Char) (t : List Char) :
    ∀ s : List Char, (∀ c ∈ s, c ≠ sep) → cut sep (s ++ sep :: t) = some (s, t)
  | [], _ => by simp [cut]
  | c :: s, h => by
    have hc : c ≠ sep := h c (List.mem_cons_self _ _)
    have hs := cut_append sep t s (fun x hx => h x (List.mem_cons_of_mem _ hx))
    simp [cut, hc, hs]

theorem isNumber_iff (c : Char) : isNumber c = true ↔ 48 ≤ c.toNat ∧ c.toNat ≤ 57 := by
  simp [isNumber]

theorem number_ne_of_toNat {c d : Char} (hc : isNumber c = true)
    (hd : d.toNat < 48 ∨ 57 < d.toNat) : c ≠ d := by
  intro e
  subst e
  have := (isNumber_iff c).mp hc
  omega

theorem isSpace_number {c : Char} (hc : isNumber c = true) : isSpace c = false := by
  have := (isNumber_iff c).mp hc
  simp only [isSpace, List.mem_cons, List.mem_singleton, List.not_mem_nil, or_false,
    Bool.or_eq_false_iff, decide_eq_false_iff_not, Bool.and_eq_false_iff, not_le]
  constructor
  · omega
  · left; omega

theorem parseNumber_digits (what : String) (ds : List Char) (hd : ∀ c ∈ ds, isNumber c = true)
    (hz : ds.head? ≠ some '0') (hne : ds ≠ []) (hhi : decimalValue ds < 2 ^ 64) :
    parseNumber what ds = .ok (decimalValue ds) := by
  have hall : ds.all isNumber = true := List.all_eq_true.mpr hd
  have hhi2 : decimalValue ds < 18446744073709551616 := hhi
  simp [parseNumber, containsOnlyNumbers, hasLeadingZeroes, ParseUint, hall, hz, hne, hhi2]

theorem tolerantPart_digits (ds : List Char) (hd : ∀ c ∈ ds, isNumber c = true)
    (hz : ds.head? ≠ some '0') : tolerantPart ds = ds := by
  unfold tolerantPart
  split_ifs with h
  · cases ds with
    | nil => simp [byteLen] at h
    | cons c t =>
      have hc : c ≠ '0' := fun e => hz (by rw [e]; rfl)
      have hn : isNumber c = true := hd c (List.mem_cons_self _ _)
      simp [List.dropWhile, hc, hn]
  · rfl

theorem TrimSpace_release (ds : List Char) (hd : ∀ c ∈ ds, isNumber c = true) :
    TrimSpace ('v' :: '1' :: '.' :: ds) = 'v' :: '1' :: '.' :: ds := by
  unfold TrimSpace
  have h1 : List.dropWhile isSpace ('v' :: '1' :: '.' :: ds) = 'v' :: '1' :: '.' :: ds := by
    rw [List.dropWhile_cons_of_neg]
    decide
  rw [h1]
  rcases List.eq_nil_or_concat ds with rfl | ⟨init, last, rfl⟩
  · decide
  · have hlast : isNumber last = true := hd last (by simp)
    have e : ('v' :: '1' :: '.' :: init.concat last) = ('v' :: '1' :: '.' :: init) ++ [last] := by
      simp
    rw [e, List.rdropWhile_concat_neg]
    simp [isSpace_number hlast]

theorem SplitN_release (ds : List Char) (hd : ∀ c ∈ ds, isNumber c = true) :
    SplitN '.' 3 ('1' :: '.' :: ds) = [['1'], ds] := by
  have hcut : cut '.' ds = none :=
    cut_none '.' ds (fun c hc => number_ne_of_toNat (hd c hc) (Or.inl (by decide)))
  simp [SplitN, cut, hcut]

theorem SplitN_padded (ds : List Char) (hd : ∀ c ∈ ds, isNumber c = true) :
    SplitN '.' 3 ('1' :: '.' :: (ds ++ '.' :: ['0'])) = [['1'], ds, ['0']] := by
  have hcut : cut '.' (ds ++ '.' :: ['0']) = some (ds, ['0']) :=
    cut_append '.' ['0'] ds (fun c hc => number_ne_of_toNat (hd c hc) (Or.inl (by decide)))
  simp [SplitN, cut, hcut]

/-- What `semver.ParseTolerant` makes of a release version "v1.N". -/
theorem parseTolerantRunes_release (ds : List Char) (hd : ∀ c ∈ ds, isNumber c = true)
    (hz : ds.head? ≠ some '0') (hne : ds ≠ []) (hhi : decimalValue ds < 2 ^ 64) :
    parseTolerantRunes ('v' :: '1' :: '.' :: ds)
      = .ok { Major := 1, Minor := decimalValue ds, Patch := 0, Pre := [], Build := [] } := by
  have hany : ds.any (fun c => decide (c = '+') || decide (c = '-')) = false := by
    rw [List.any_eq_false]
    intro c hc
    have h1 := number_ne_of_toNat (hd c hc) (d := '+') (Or.inl (by decide))
    have h2 := number_ne_of_toNat (hd c hc) (d := '-') (Or.inl (by decide))
    simp [h1, h2]
  have hmajor : parseNumber "Major" ['1'] = .ok 1 := by rfl
  have hpatch : parseNumber "Patch" ['0'] = .ok 0 := by rfl
  simp only [parseTolerantRunes, TrimSpace_release ds hd, TrimPrefixV, SplitN_release ds hd,
    List.map_cons, List.map_nil, tolerantPart_digits ds hd hz]
  have htp : tolerantPart ['1'] = ['1'] := by rfl
  have hjoin : joinRunes ['.'] ([['1'], ds] ++ List.replicate (3 - [['1'], ds].length) ['0'])
      = '1' :: '.' :: (ds ++ '.' :: ['0']) := by
    simp [joinRunes]
  have hlen : [['1'], ds].length < 3 := by simp
  rw [htp, if_pos hlen]
  simp only [List.getLastD_cons, List.getLastD_nil, hany, Bool.false_eq_true, if_false, hjoin]
  simp only [Parse, List.length_cons, SplitN_padded ds hd, hmajor,
    parseNumber_digits "Minor" ds hd hz hne hhi]
  have hplus : cut '+' ['0'] = none := by rfl
  have hminus : cut '-' ['0'] = none := by rfl
  simp only [hplus, hminus, hpatch, parsePre, parseBuild]
  rw [if_neg (by omega)]

theorem ParseTolerant_threshold :
    ParseTolerant "v1.21" = .ok { Major := 1, Minor := 21, Patch := 0, Pre := [], Build := [] } := by
  rfl

theorem digitChar_toNat : ∀ m, m < 10 → (Nat.digitChar m).toNat = 48 + m := by
  decide

theorem decimalValue_append_singleton (L : List Char) (d : Char) :
    decimalValue (L ++ [d]) = 10 * decimalValue L + (d.toNat - 48) := by
  simp [decimalValue, List.foldl_append]

/-- The numeral that Lean's `Nat.toDigits 10` writes for `n`: digits only, denoting `n`,
not empty, and without a leading zero when `n` is positive. -/
theorem toDigitsCore_spec : ∀ (fuel n : Nat) (acc : List Char), n < fuel →
    Nat.toDigitsCore 10 fuel n acc = Nat.toDigitsCore 10 fuel n [] ++ acc
      ∧ (∀ c ∈ Nat.toDigitsCore 10 fuel n [], isNumber c = true)
      ∧ decimalValue (Nat.toDigitsCore 10 fuel n []) = n
      ∧ Nat.toDigitsCore 10 fuel n [] ≠ []
      ∧ (1 ≤ n → (Nat.toDigitsCore 10 fuel n []).head? ≠ some '0') := by
  intro fuel
  induction fuel with
  | zero => intro n acc h; exact absurd h (Nat.not_lt_zero n)
  | succ fuel ih =>
    intro n acc hn
    have hmod : n % 10 < 10 := Nat.mod_lt n (by decide)
    have hdc := digitChar_toNat (n % 10) hmod
    have hdnum : isNumber (Nat.digitChar (n % 10)) = true := by
      rw [isNumber_iff]; omega
    by_cases h0 : n / 10 = 0
    · have hlt : n < 10 := by omega
      have hmodn : n % 10 = n := Nat.mod_eq_of_lt hlt
      simp only [Nat.toDigitsCore, h0, if_true]
      refine ⟨rfl, ?_, ?_, by simp, ?_⟩
      · intro c hc
        simp only [List.mem_singleton] at hc
        rw [hc]; exact hdnum
      · simp only [decimalValue, List.foldl_cons, List.foldl_nil, hdc]
        omega
      · intro h1 heq
        simp only [List.head?_cons, Option.some.injEq] at heq
        rw [heq] at hdc
        have : ('0' : Char).toNat = 48 := by decide
        omega
    · have hlt : n / 10 < fuel := by omega
      obtain ⟨e1, -, -, -, -⟩ := ih (n / 10) (Nat.digitChar (n % 10) :: acc) hlt
      obtain ⟨e2, -, -, -, -⟩ := ih (n / 10) [Nat.digitChar (n % 10)] hlt
      obtain ⟨-, p1, p2, p3, p4⟩ := ih (n / 10) [] hlt
      simp only [Nat.toDigitsCore, h0, if_false]
      rw [e1, e2]
      refine ⟨by simp, ?_, ?_, by simp, ?_⟩
      · intro c hc
        simp only [List.mem_append, List.mem_singleton] at hc
        rcases hc with hc | hc
        · exact p1 c hc
        · rw [hc]; exact hdnum
      · rw [decimalValue_append_singleton, p2, hdc]
        omega
      · intro _
        have h1 : 1 ≤ n / 10 := by omega
        have := p4 h1
        cases hL : Nat.toDigitsCore 10 fuel (n / 10) [] with
        | nil => exact absurd hL p3
        | cons c t => rw [hL] at this; simpa using this

theorem toString_data (n : Nat) : (toString n).data = Nat.toDigits 10 n := rfl

/-- The decision of `isPRRRequired` on a release version, the minor given by its digits. -/
theorem isPRRRequired_release (IsMissingMilestone : Proposal → Bool) (kep : Proposal)
    (ds : List Char) (hst : kep.Status = "implementable")
    (hmiss : IsMissingMilestone kep = false)
    (hms : kep.LatestMilestone = ⟨'v' :: '1' :: '.' :: ds⟩)
    (hd : ∀ c ∈ ds, isNumber c = true) (hz : ds.head? ≠ some '0')
    (hlo : 1 ≤ decimalValue ds) (hhi : decimalValue ds < 2 ^ 64) :
    isPRRRequired IsMissingMilestone kep = (decide (21 ≤ decimalValue ds), false, none) := by
  have hne : ds ≠ [] := by
    intro e
    rw [e] at hlo
    exact absurd hlo (by decide)
  unfold isPRRRequired
  simp only [hst, hmiss, ne_eq, not_true_eq_false, if_false, Bool.false_eq_true,
    ParseTolerant_threshold]
  have hp : ParseTolerant kep.LatestMilestone
      = .ok { Major := 1, Minor := decimalValue ds, Patch := 0, Pre := [], Build := [] } := by
    rw [hms]
    exact parseTolerantRunes_release ds hd hz hne hhi
  rw [hp]
  simp only [Version.LT, Version.Compare]
  by_cases h21 : 21 ≤ decimalValue ds
  · rcases Nat.eq_or_lt_of_le h21 with e | hlt
    · simp [← e]
    · have h1 : decimalValue ds ≠ 21 := by omega
      have h2 : decimalValue ds > 21 := hlt
      simp [h1, h2, h21]
  · have h1 : decimalValue ds ≠ 21 := by omega
    have h2 : ¬ decimalValue ds > 21 := by omega
    simp [h1, h2, h21]

/-- C1: for every proposal with Status "implementable", a latest milestone that is not
missing, and LatestMilestone "v1.N" with N written in decimal (without leading zeros, as
`toString` writes it) and 1 <= N < 2^64, isPRRRequired returns a nil error,
missingMilestone = false, and required = true exactly when 21 <= N; the comparison is on
the number, not on the text. -/
theorem C1_required_from_v1_21 (IsMissingMilestone : Proposal → Bool) (kep : Proposal)
    (N : Nat) (hst : kep.Status = "implementable")
    (hmiss : IsMissingMilestone kep = false)
    (hms : kep.LatestMilestone = "v1." ++ toString N)
    (hlo : 1 ≤ N) (hhi : N < 2 ^ 64) :
    isPRRRequired IsMissingMilestone kep = (decide (21 ≤ N), false, none) := by
  obtain ⟨-, hd, hv, -, hz⟩ := toDigitsCore_spec (N + 1) N [] (Nat.lt_succ_self N)
  have hdata : kep.LatestMilestone = ⟨'v' :: '1' :: '.' :: Nat.toDigits 10 N⟩ := by
    rw [hms]
    apply String.ext
    rw [String.data_append, toString_data]
    rfl
  have h := isPRRRequired_release IsMissingMilestone kep (Nat.toDigits 10 N) hst hmiss hdata
    hd (hz hlo) (by rw [Nat.toDigits, hv]; exact hlo) (by rw [Nat.toDigits, hv]; exact hhi)
  rw [Nat.toDigits, hv] at h
  exact h

/-- C1 at the four milestones of the claim: "v1.20" and "v1.3" do not require the review,
"v1.21" and "v1.100" do. -/
theorem C1_required_from_v1_21_witness :
    isPRRRequired (fun _ => false) ⟨"1234", "sig-node", "implementable", "alpha", "v1.20", ⟨"", "", ""⟩⟩
        = (false, false, none)
    ∧ isPRRRequired (fun _ => false) ⟨"1234", "sig-node", "implementable", "alpha", "v1.3", ⟨"", "", ""⟩⟩
        = (false, false, none)
    ∧ isPRRRequired (fun _ => false) ⟨"1234", "sig-node", "implementable", "alpha", "v1.21", ⟨"", "", ""⟩⟩
        = (true, false, none)
    ∧ isPRRRequired (fun _ => false) ⟨"1234", "sig-node", "implementable", "alpha", "v1.100", ⟨"", "", ""⟩⟩
        = (true, false, none) :=
  ⟨C1_required_from_v1_21 _ _ 20 rfl rfl (by decide) (by decide) (by decide),
   C1_required_from_v1_21 _ _ 3 rfl rfl (by decide) (by decide) (by decide),
   C1_required_from_v1_21 _ _ 21 rfl rfl (by decide) (by decide) (by decide),
   C1_required_from_v1_21 _ _ 100 rfl rfl (by decide) (by decide) (by decide)⟩

/-- C2: when Status is not "implementable", or the latest milestone is missing,
isPRRRequired returns (false, kep.IsMissingMilestone(), nil), whatever the LatestMilestone
text is; the result has no dependence on any parsed version. -/
theorem C2_not_required_without_parsing (IsMissingMilestone : Proposal → Bool) (kep : Proposal)
    (h : kep.Status ≠ "implementable" ∨ IsMissingMilestone kep = true) :
    isPRRRequired IsMissingMilestone kep = (false, IsMissingMilestone kep, none) := by
  unfold isPRRRequired
  by_cases hs : kep.Status ≠ "implementable"
  · rw [if_pos hs]
  · rcases h with h | h
    · exact absurd h hs
    · rw [if_neg hs, if_pos h]

/-- C2 at a concrete proposal: status "provisional" with a milestone text that is no version,
and status "implementable" with the milestone reported missing. -/
theorem C2_not_required_without_parsing_witness :
    isPRRRequired (fun _ => false) ⟨"1234", "sig-node", "provisional", "alpha", "bogus", ⟨"", "", ""⟩⟩
        = (false, false, none)
      ∧ isPRRRequired (fun _ => true)
          ⟨"1234", "sig-node", "implementable", "alpha", "bogus", ⟨"", "", ""⟩⟩
        = (false, true, none) :=
  ⟨C2_not_required_without_parsing _ _ (Or.inl (by decide)),
   C2_not_required_without_parsing _ _ (Or.inr rfl)⟩

/-- C3: a document without the key "title", or without the key "owning-sig" (exact
lookup), gets the missing-required-field error for the first missing key in the order
title, owning-sig, whatever else it contains and whatever the two fetches would return. -/
theorem C3_missing_mandatory_key (U : CaseTables) (FetchGroups FetchPRRApprovers : Except Err (List String))
    (parsed : Doc)
    (h : hasKey parsed "title" = false ∨ hasKey parsed "owning-sig" = false) :
    ValidateStructure U FetchGroups FetchPRRApprovers parsed =
      .error (.KeyMustBeSpecified (if hasKey parsed "title" = false then "title" else "owning-sig")) := by
  cases ht : hasKey parsed "title" with
  | false => simp [ValidateStructure, mandatoryKeys, List.find?, ht]
  | true =>
    rcases h with h | h
    · rw [ht] at h; cases h
    · simp [ValidateStructure, mandatoryKeys, List.find?, ht, h]

/-- C3 at concrete documents: the key "Title" does not stand for "title"; a document with
"title" only lacks "owning-sig"; a failing fetch and an invalid entry are not reached. -/
theorem C3_missing_mandatory_key_witness :
    ValidateStructure ⟨id, fun _ _ => false⟩ (.error (.fetch "unreachable")) (.ok [])
        [(.str "Title", .str "Foo"), (.str "owning-sig", .str "sig-node"), (.int 3, .null)]
        = .error (.KeyMustBeSpecified "title")
      ∧ ValidateStructure ⟨id, fun _ _ => false⟩ (.ok []) (.ok [])
        [(.str "title", .str "Foo"), (.str "status", .str "in-progress")]
        = .error (.KeyMustBeSpecified "owning-sig") :=
  ⟨C3_missing_mandatory_key _ _ _ _ (Or.inl (by decide)),
   C3_missing_mandatory_key _ _ _ _ (Or.inr (by decide))⟩

/-- C4 (the code at the failing inputs): with the mandatory keys present and every other
entry passing, a `latest-milestone` string without a backslash in it is rejected with
ValueMustBeMilestone(key, value). Every release version "v1.N" is such a string, so the
code rejects "v1.21" where the claim has it accepted. -/
theorem C4_latest_milestone_needs_backslash (U : CaseTables) (g A : List String)
    (pre post : Doc) (k s : String) (hk : ToLower U k = "latest-milestone")
    (ht : hasKey (pre ++ (Key.str k, Value.str s) :: post) "title" = true)
    (ho : hasKey (pre ++ (Key.str k, Value.str s) :: post) "owning-sig" = true)
    (hpre : ∀ x ∈ pre, entryOutcome U g A x = .nil)
    (hpost : ∀ x ∈ post, entryOutcome U g A x = .nil)
    (hs : '\\' ∉ s.data) :
    ValidateStructure U (.ok g) (.ok A) (pre ++ (Key.str k, Value.str s) :: post)
      = .error (.ValueMustBeMilestone k s) := by
  rw [ValidateStructure_single U g A pre post _ ht ho hpre hpost]
  simp only [entryOutcome, checkEntry_latestMilestone hk, latestMilestoneCase, asString]
  cases hm : reMilestone.Match s with
  | false => rfl
  | true => exact absurd (reMilestone_needs_backslash s hm) hs

/-- C4 at the document {title: Foo, owning-sig: sig-node, latest-milestone: v1.21}: the
release version is rejected; and the five-rune text v, 1, backslash, dot, 2, which has no
match of the pattern with a literal dot, is accepted. -/
theorem C4_latest_milestone_needs_backslash_witness :
    ValidateStructure asciiOnly (.ok ["sig-node"]) (.ok [])
        ([(.str "title", .str "Foo"), (.str "owning-sig", .str "sig-node")]
          ++ (Key.str "latest-milestone", Value.str "v1.21") :: [])
      = .error (.ValueMustBeMilestone "latest-milestone" "v1.21")
    ∧ ValidateStructure asciiOnly (.ok ["sig-node"]) (.ok [])
        [(.str "title", .str "Foo"), (.str "owning-sig", .str "sig-node"),
         (.str "latest-milestone", .str "v1\\.2")]
      = .nil :=
  ⟨C4_latest_milestone_needs_backslash asciiOnly ["sig-node"] []
    [(.str "title", .str "Foo"), (.str "owning-sig", .str "sig-node")] []
    "latest-milestone" "v1.21" rfl rfl rfl
    (by intro x hx; simp only [List.mem_cons, List.mem_singleton, List.not_mem_nil, or_false] at hx
        rcases hx with rfl | rfl <;> rfl)
    (by intro x hx; cases hx)
    (by decide),
   rfl⟩

/-- C5 (the code at the failing inputs): for the milestone mapping {alpha: "v1.21",
beta: "bogus"} visited in that order the error names the entry alpha, not beta; visited
in the other order it names beta; and the mapping {alpha: "v1.21"}, all of whose entries
are release versions, is rejected. -/
theorem C5_milestone_mapping_rejects_versions (U : CaseTables) :
    ValidateStructure U (.ok ["sig-node"]) (.ok [])
        [(.str "title", .str "Foo"), (.str "owning-sig", .str "sig-node"),
         (.str "milestone", .map [(.str "alpha", .str "v1.21"), (.str "beta", .str "bogus")])]
      = .error (.ValueMustBeMilestone "alpha" "v1.21")
    ∧ ValidateStructure U (.ok ["sig-node"]) (.ok [])
        [(.str "title", .str "Foo"), (.str "owning-sig", .str "sig-node"),
         (.str "milestone", .map [(.str "beta", .str "bogus"), (.str "alpha", .str "v1.21")])]
      = .error (.ValueMustBeMilestone "beta" "bogus")
    ∧ ValidateStructure U (.ok ["sig-node"]) (.ok [])
        [(.str "title", .str "Foo"), (.str "owning-sig", .str "sig-node"),
         (.str "milestone", .map [(.str "alpha", .str "v1.21")])]
      = .error (.ValueMustBeMilestone "alpha" "v1.21") :=
  ⟨rfl, rfl, rfl⟩

/-- C6 (the code at the failing input): the document of scenario 1 with the group list
supplied as [sig-node, sig-api], which holds sig-node but is not sorted, is rejected;
the binary search runs on the list as supplied. -/
theorem C6_unsorted_groups_rejected (U : CaseTables) :
    ValidateStructure U (.ok ["sig-node", "sig-api"]) (.ok [])
        [(.str "title", .str "Foo"), (.str "owning-sig", .str "sig-node"),
         (.str "status", .str "provisional")]
      = .error (.ValueMustBeOneOf "owning-sig" "sig-node" ["sig-node", "sig-api"])
    ∧ ValidateStructure U (.ok ["sig-api", "sig-node"]) (.ok [])
        [(.str "title", .str "Foo"), (.str "owning-sig", .str "sig-node"),
         (.str "status", .str "provisional")]
      = .nil :=
  ⟨rfl, rfl⟩

/-- Beside C6: when the group list is supplied sorted, the search of `case "owning-sig"`
does decide membership. -/
theorem owningSig_on_sorted_groups (U : CaseTables) (g A : List String) (pre post : Doc)
    (k s : String) (hk : ToLower U k = "owning-sig")
    (ht : hasKey (pre ++ (Key.str k, Value.str s) :: post) "title" = true)
    (ho : hasKey (pre ++ (Key.str k, Value.str s) :: post) "owning-sig" = true)
    (hpre : ∀ x ∈ pre, entryOutcome U g A x = .nil)
    (hpost : ∀ x ∈ post, entryOutcome U g A x = .nil)
    (hs : g.Sorted sortRel) :
    ValidateStructure U (.ok g) (.ok A) (pre ++ (Key.str k, Value.str s) :: post) = .nil
      ↔ s ∈ g := by
  rw [ValidateStructure_single U g A pre post _ ht ho hpre hpost]
  simp only [entryOutcome, checkEntry_owningSig hk, owningSigCase, asString]
  cases hn : notFound g s with
  | false =>
    exact ⟨fun _ => (notFound_sorted hs s).mp hn, fun _ => rfl⟩
  | true =>
    refine ⟨fun h => (by cases h), fun h => ?_⟩
    have := (notFound_sorted hs s).mpr h
    rw [hn] at this
    cases this

theorem approversLoop_strings (k : String) (S : List String) (xs : List String) :
    approversLoop k S (xs.map Value.str) =
      match xs.find? (fun x => notFound S (stripAt x)) with
      | none => .nil
      | some x => .error (.ValueMustBeOneOf k (stripAt x) S) := by
  induction xs with
  | nil => rfl
  | cons x rest ih =>
    simp only [List.map_cons, approversLoop, List.find?]
    cases h : notFound S (stripAt x) with
    | true => rfl
    | false => simpa using ih

theorem find_notFound_sorted (A : List String) (xs : List String) :
    xs.find? (fun x => notFound (sortStrings A) (stripAt x))
      = xs.find? (fun x => decide (stripAt x ∉ A)) := by
  congr 1
  funext x
  cases h : notFound (sortStrings A) (stripAt x) with
  | false =>
    have := (notFound_sortStrings A (stripAt x)).mp h
    simp [this]
  | true =>
    have : stripAt x ∉ A := by
      intro hm
      have := (notFound_sortStrings A (stripAt x)).mpr hm
      rw [h] at this
      cases this
    simp [this]

/-- C7: with the mandatory keys present and every other entry passing, a `prr-approvers`
list of strings is accepted exactly when every element, with one leading "@" removed when
there is one, is in the approver list (in whatever order the list is supplied); otherwise
the result is ValueMustBeOneOf(key, stripped element, approvers as sorted by the code) for
the first failing element in list order. A value that is neither null nor a list gives
ValueMustBeListOfStrings(key, value). -/
theorem C7_prr_approvers_membership (U : CaseTables) (g A : List String) (pre post : Doc)
    (k : String) (value : Value) (hk : ToLower U k = "prr-approvers")
    (ht : hasKey (pre ++ (Key.str k, value) :: post) "title" = true)
    (ho : hasKey (pre ++ (Key.str k, value) :: post) "owning-sig" = true)
    (hpre : ∀ x ∈ pre, entryOutcome U g A x = .nil)
    (hpost : ∀ x ∈ post, entryOutcome U g A x = .nil) :
    (∀ xs : List String, value = .list (xs.map Value.str) →
        (ValidateStructure U (.ok g) (.ok A) (pre ++ (Key.str k, value) :: post) = .nil
            ↔ ∀ x ∈ xs, stripAt x ∈ A)
        ∧ (∀ x, xs.find? (fun x => decide (stripAt x ∉ A)) = some x →
            ValidateStructure U (.ok g) (.ok A) (pre ++ (Key.str k, value) :: post)
              = .error (.ValueMustBeOneOf k (stripAt x) (sortStrings A))))
      ∧ (value ≠ .null → (∀ xs, value ≠ .list xs) →
          ValidateStructure U (.ok g) (.ok A) (pre ++ (Key.str k, value) :: post)
            = .error (.ValueMustBeListOfStrings k value)) := by
  rw [ValidateStructure_single U g A pre post _ ht ho hpre hpost]
  simp only [entryOutcome, checkEntry_prrApprovers hk]
  refine ⟨?_, ?_⟩
  · intro xs hv
    subst hv
    simp only [prrApproversCase, approversLoop_strings, find_notFound_sorted]
    cases hf : xs.find? (fun x => decide (stripAt x ∉ A)) with
    | none =>
      refine ⟨⟨fun _ x hx => ?_, fun _ => rfl⟩, fun x hx => by cases hx⟩
      have := List.find?_eq_none.mp hf x hx
      simpa using this
    | some y =>
      refine ⟨⟨fun h => (by cases h), fun h => ?_⟩, fun x hx => ?_⟩
      · have hy := List.find?_some hf
        have hmem := List.mem_of_find?_eq_some hf
        simp only [decide_eq_true_eq] at hy
        exact absurd (h y hmem) hy
      · cases hx; rfl
  · intro hnull hlist
    cases value with
    | null => exact absurd rfl hnull
    | list xs => exact absurd rfl (hlist xs)
    | str s => rfl
    | int i => rfl
    | bool b => rfl
    | map m => rfl

/-- C7 at concrete documents: with the approver list supplied unsorted as [wojtek, john],
the entries ["@john", "wojtek"] are accepted, in ["@john", "@eve", "mallory"] the first
failing element is reported without its "@", and a string value is no list. -/
theorem C7_prr_approvers_membership_witness :
    ValidateStructure asciiOnly (.ok ["sig-node"]) (.ok ["wojtek", "john"])
        ([(.str "title", .str "Foo"), (.str "owning-sig", .str "sig-node")]
          ++ (Key.str "prr-approvers", .list (["@john", "wojtek"].map Value.str)) :: [])
      = .nil
    ∧ ValidateStructure asciiOnly (.ok ["sig-node"]) (.ok ["wojtek", "john"])
        ([(.str "title", .str "Foo"), (.str "owning-sig", .str "sig-node")]
          ++ (Key.str "prr-approvers", .list (["@john", "@eve", "mallory"].map Value.str)) :: [])
      = .error (.ValueMustBeOneOf "prr-approvers" "eve" (sortStrings ["wojtek", "john"]))
    ∧ ValidateStructure asciiOnly (.ok ["sig-node"]) (.ok ["wojtek", "john"])
        ([(.str "title", .str "Foo"), (.str "owning-sig", .str "sig-node")]
          ++ (Key.str "prr-approvers", .str "john") :: [])
      = .error (.ValueMustBeListOfStrings "prr-approvers" (.str "john")) :=
  ⟨((C7_prr_approvers_membership asciiOnly ["sig-node"] ["wojtek", "john"]
      [(.str "title", .str "Foo"), (.str "owning-sig", .str "sig-node")] []
      "prr-approvers" _ rfl rfl rfl
      (by intro x hx; simp only [List.mem_cons, List.mem_singleton, List.not_mem_nil, or_false] at hx
          rcases hx with rfl | rfl <;> rfl)
      (by intro x hx; cases hx)).1 ["@john", "wojtek"] rfl).1.mpr (by decide),
   ((C7_prr_approvers_membership asciiOnly ["sig-node"] ["wojtek", "john"]
      [(.str "title", .str "Foo"), (.str "owning-sig", .str "sig-node")] []
      "prr-approvers" _ rfl rfl rfl
      (by intro x hx; simp only [List.mem_cons, List.mem_singleton, List.not_mem_nil, or_false] at hx
          rcases hx with rfl | rfl <;> rfl)
      (by intro x hx; cases hx)).1 ["@john", "@eve", "mallory"] rfl).2 "@eve" (by decide),
   (C7_prr_approvers_membership asciiOnly ["sig-node"] ["wojtek", "john"]
      [(.str "title", .str "Foo"), (.str "owning-sig", .str "sig-node")] []
      "prr-approvers" _ rfl rfl rfl
      (by intro x hx; simp only [List.mem_cons, List.mem_singleton, List.not_mem_nil, or_false] at hx
          rcases hx with rfl | rfl <;> rfl)
      (by intro x hx; cases hx)).2 (by intro h; cases h) (by intro xs h; cases h)⟩

theorem stripAt_at_append (n : String) : stripAt ("@" ++ n) = n := by
  simp [stripAt, String.data_append]

theorem stripAt_of_no_at {n : String} (h : n.data.head? ≠ some '@') : stripAt n = n := by
  unfold stripAt
  cases hd : n.data with
  | nil => rfl
  | cons c t =>
    rw [hd] at h
    have : c ≠ '@' := fun e => h (by rw [e]; rfl)
    simp [this]

theorem approversLoop_congr (k : String) (S : List String) (a b : String)
    (h : stripAt a = stripAt b) (ys : List Value) :
    ∀ xs : List Value, approversLoop k S (xs ++ Value.str a :: ys)
      = approversLoop k S (xs ++ Value.str b :: ys) := by
  intro xs
  induction xs with
  | nil => simp only [List.nil_append, approversLoop, h]
  | cons x rest ih =>
    cases x with
    | str s =>
      rw [List.cons_append, List.cons_append]
      simp only [approversLoop]
      rw [ih]
    | null => rfl
    | int i => rfl
    | bool c => rfl
    | list l => rfl
    | map m => rfl

theorem rangeLoop_congr (U : CaseTables) (g : List String) (key : Key) (v1 v2 : Value)
    (h : ∀ A, checkEntry U g A key v1 = checkEntry U g A key v2) (post : Doc) :
    ∀ (pre : Doc) (A : List String),
      rangeLoop U g A (pre ++ (key, v1) :: post) = rangeLoop U g A (pre ++ (key, v2) :: post) := by
  intro pre
  induction pre with
  | nil => intro A; simp only [List.nil_append, rangeLoop, h]
  | cons e rest ih =>
    intro A
    obtain ⟨k0, v0⟩ := e
    simp only [List.cons_append, rangeLoop]
    cases checkEntry U g A k0 v0 with
    | next p => exact ih p
    | ret x => rfl
    | panic => rfl

theorem hasKey_congr (pre post : Doc) (key : Key) (v1 v2 : Value) (name : String) :
    hasKey (pre ++ (key, v1) :: post) name = hasKey (pre ++ (key, v2) :: post) name := by
  simp [hasKey]

/-- C8, as stated, fails when the name itself begins with "@": with the approver list
["@bob"] and n = "@bob", the entry "@" + n = "@@bob" is accepted and the entry n is
rejected, since one "@" is removed from each. -/
theorem C8_counterexample_name_with_at :
    "@bob" ∈ ["@bob"]
    ∧ (∀ U : CaseTables, ValidateStructure U (.ok ["sig-node"]) (.ok ["@bob"])
        [(.str "title", .str "Foo"), (.str "owning-sig", .str "sig-node"),
         (.str "prr-approvers", .list [.str ("@" ++ "@bob")])]
      = .nil)
    ∧ (∀ U : CaseTables, ValidateStructure U (.ok ["sig-node"]) (.ok ["@bob"])
        [(.str "title", .str "Foo"), (.str "owning-sig", .str "sig-node"),
         (.str "prr-approvers", .list [.str "@bob"])]
      = .error (.ValueMustBeOneOf "prr-approvers" "bob" ["@bob"])) :=
  ⟨by decide, fun _ => rfl, fun _ => rfl⟩

/-- C8, amended: for every approver list and every name n in it that does not itself
begin with "@", a document whose `prr-approvers` list has the entry "@" + n gets the same
result from ValidateStructure as the document with that entry replaced by n, whatever the
other entries and the visiting order. -/
theorem C8_at_entry_validates_as_plain (U : CaseTables) (FetchGroups : Except Err (List String))
    (A : List String) (n : String) (pre post : Doc) (k : String) (xs ys : List Value)
    (_hn : n ∈ A) (hat : n.data.head? ≠ some '@') (hk : ToLower U k = "prr-approvers") :
    ValidateStructure U FetchGroups (.ok A)
        (pre ++ (Key.str k, Value.list (xs ++ Value.str ("@" ++ n) :: ys)) :: post)
      = ValidateStructure U FetchGroups (.ok A)
        (pre ++ (Key.str k, Value.list (xs ++ Value.str n :: ys)) :: post) := by
  have hstrip : stripAt ("@" ++ n) = stripAt n := by
    rw [stripAt_at_append, stripAt_of_no_at hat]
  have hentry : ∀ g B, checkEntry U g B (Key.str k)
        (Value.list (xs ++ Value.str ("@" ++ n) :: ys))
      = checkEntry U g B (Key.str k) (Value.list (xs ++ Value.str n :: ys)) := by
    intro g B
    rw [checkEntry_prrApprovers hk, checkEntry_prrApprovers hk]
    simp only [prrApproversCase, approversLoop_congr k _ _ _ hstrip ys xs]
  unfold ValidateStructure
  simp only [hasKey_congr pre post (Key.str k) (Value.list (xs ++ Value.str ("@" ++ n) :: ys))
    (Value.list (xs ++ Value.str n :: ys))]
  cases mandatoryKeys.find? (fun key =>
      !hasKey (pre ++ (Key.str k, Value.list (xs ++ Value.str n :: ys)) :: post) key) with
  | some key => rfl
  | none =>
    cases FetchGroups with
    | error e => rfl
    | ok g => exact rangeLoop_congr U g _ _ _ (hentry g) post pre A

/-- C8 amended, at the approver list [john] and n = "john". -/
theorem C8_at_entry_validates_as_plain_witness :
    ValidateStructure asciiOnly (.ok ["sig-node"]) (.ok ["john"])
        ([(.str "title", .str "Foo"), (.str "owning-sig", .str "sig-node")]
          ++ (Key.str "prr-approvers", Value.list ([] ++ Value.str ("@" ++ "john") :: [])) :: [])
      = ValidateStructure asciiOnly (.ok ["sig-node"]) (.ok ["john"])
        ([(.str "title", .str "Foo"), (.str "owning-sig", .str "sig-node")]
          ++ (Key.str "prr-approvers", Value.list ([] ++ Value.str "john" :: [])) :: []) :=
  C8_at_entry_validates_as_plain asciiOnly (.ok ["sig-node"]) ["john"] "john"
    [(.str "title", .str "Foo"), (.str "owning-sig", .str "sig-node")] []
    "prr-approvers" [] [] (by decide) (by decide) rfl

/-- C9: with the mandatory keys present and every other entry passing, a `status` entry
with string value s is accepted exactly when s contains one of the seven status words as
a substring (case-sensitive containment, not equality); otherwise the result is
ValueMustBeOneOf(key, s, statuses). -/
theorem C9_status_by_containment (U : CaseTables) (g A : List String) (pre post : Doc)
    (k s : String) (hk : ToLower U k = "status")
    (ht : hasKey (pre ++ (Key.str k, Value.str s) :: post) "title" = true)
    (ho : hasKey (pre ++ (Key.str k, Value.str s) :: post) "owning-sig" = true)
    (hpre : ∀ x ∈ pre, entryOutcome U g A x = .nil)
    (hpost : ∀ x ∈ post, entryOutcome U g A x = .nil) :
    (ValidateStructure U (.ok g) (.ok A) (pre ++ (Key.str k, Value.str s) :: post) = .nil
        ↔ ∃ st ∈ statuses, st.data <:+: s.data)
      ∧ ((¬ ∃ st ∈ statuses, st.data <:+: s.data) →
          ValidateStructure U (.ok g) (.ok A) (pre ++ (Key.str k, Value.str s) :: post)
            = .error (.ValueMustBeOneOf k s statuses)) := by
  rw [ValidateStructure_single U g A pre post _ ht ho hpre hpost]
  simp only [entryOutcome, checkEntry_status hk, enumCase, asString]
  by_cases hm : reStatus.Match s = true
  · have hex := (reStatus_match s).mp hm
    rw [hm]
    exact ⟨⟨fun _ => hex, fun _ => rfl⟩, fun hn => absurd hex hn⟩
  · have hex : ¬ ∃ st ∈ statuses, st.data <:+: s.data := fun h => hm ((reStatus_match s).mpr h)
    simp only [Bool.not_eq_true] at hm
    rw [hm]
    exact ⟨⟨fun h => (by cases h), fun h => absurd h hex⟩, fun _ => rfl⟩

/-- C9 at the document of scenario 2: status "in-progress" contains none of the status
words and is rejected with the closed set in the error. -/
theorem C9_status_by_containment_witness :
    ValidateStructure asciiOnly (.ok ["sig-node"]) (.ok [])
        ([(.str "title", .str "Foo"), (.str "owning-sig", .str "sig-node")]
          ++ (Key.str "status", Value.str "in-progress") :: [])
      = .error (.ValueMustBeOneOf "status" "in-progress" statuses) :=
  (C9_status_by_containment asciiOnly ["sig-node"] []
    [(.str "title", .str "Foo"), (.str "owning-sig", .str "sig-node")] []
    "status" "in-progress" rfl rfl rfl
    (by intro x hx; simp only [List.mem_cons, List.mem_singleton, List.not_mem_nil, or_false] at hx
        rcases hx with rfl | rfl <;> rfl)
    (by intro x hx; cases hx)).2
    (by intro h
        have := (reStatus_match "in-progress").mpr h
        revert this
        decide)

theorem equalFoldRunes_length (U : CaseTables) :
    ∀ (s t : List Char), equalFoldRunes U s t = true → s.length = t.length
  | [], [] => fun _ => rfl
  | [], _ :: _ => fun h => by simp [equalFoldRunes] at h
  | _ :: _, [] => fun h => by simp [equalFoldRunes] at h
  | a :: s, b :: t => fun h => by
    simp only [equalFoldRunes, Bool.and_eq_true] at h
    simp only [List.length_cons, equalFoldRunes_length U s t h.2]

theorem ToLower_length (U : CaseTables) (k : String) :
    (ToLower U k).data.length = k.data.length := by
  simp [ToLower]

/-- A key that selects `case "authors", "reviewers", "approvers"` is too short to be
folded onto "participating-sigs". -/
theorem not_participating_of_authors {U : CaseTables} {k : String}
    (h : ToLower U k = "authors" ∨ ToLower U k = "reviewers" ∨ ToLower U k = "approvers") :
    EqualFold U k "participating-sigs" = false := by
  cases hf : EqualFold U k "participating-sigs" with
  | false => rfl
  | true =>
    exfalso
    have hl := equalFoldRunes_length U _ _ hf
    rw [← ToLower_length U k] at hl
    rcases h with h | h | h <;> rw [h] at hl <;> revert hl <;> decide

/-- C10, as stated, fails: the elements of an `authors` list are never examined, so the
list [1] of one integer is accepted; and a null `authors` value is accepted too, although
it is no list. -/
theorem C10_counterexample_unchecked_elements :
    (∀ U : CaseTables, ValidateStructure U (.ok ["sig-node"]) (.ok [])
        [(.str "title", .str "Foo"), (.str "owning-sig", .str "sig-node"),
         (.str "authors", .list [.int 1])]
      = .nil)
    ∧ (∀ U : CaseTables, ValidateStructure U (.ok ["sig-node"]) (.ok [])
        [(.str "title", .str "Foo"), (.str "owning-sig", .str "sig-node"),
         (.str "authors", .null)]
      = .nil) :=
  ⟨fun _ => rfl, fun _ => rfl⟩

/-- C10, amended: with the mandatory keys present and every other entry passing, an
`authors`, `reviewers` or `approvers` entry whose value is not null is accepted exactly
when the value is a non-empty list (the elements are not examined); an empty list gives
MustHaveAtLeastOneValue(key), and a value that is neither null nor a list gives
ValueMustBeListOfStrings(key, value). -/
theorem C10_author_lists_nonempty (U : CaseTables) (g A : List String) (pre post : Doc)
    (k : String) (value : Value)
    (hk : ToLower U k = "authors" ∨ ToLower U k = "reviewers" ∨ ToLower U k = "approvers")
    (ht : hasKey (pre ++ (Key.str k, value) :: post) "title" = true)
    (ho : hasKey (pre ++ (Key.str k, value) :: post) "owning-sig" = true)
    (hpre : ∀ x ∈ pre, entryOutcome U g A x = .nil)
    (hpost : ∀ x ∈ post, entryOutcome U g A x = .nil)
    (hnull : value ≠ .null) :
    (ValidateStructure U (.ok g) (.ok A) (pre ++ (Key.str k, value) :: post) = .nil
        ↔ ∃ xs, value = .list xs ∧ xs ≠ [])
      ∧ (value = .list [] →
          ValidateStructure U (.ok g) (.ok A) (pre ++ (Key.str k, value) :: post)
            = .error (.MustHaveAtLeastOneValue k))
      ∧ ((∀ xs, value ≠ .list xs) →
          ValidateStructure U (.ok g) (.ok A) (pre ++ (Key.str k, value) :: post)
            = .error (.ValueMustBeListOfStrings k value)) := by
  rw [ValidateStructure_single U g A pre post _ ht ho hpre hpost]
  simp only [entryOutcome, checkEntry_authors hk]
  cases value with
  | null => exact absurd rfl hnull
  | list xs =>
    cases xs with
    | nil =>
      refine ⟨⟨fun h => (by cases h), ?_⟩, fun _ => rfl, fun h => absurd rfl (h [])⟩
      rintro ⟨xs, hx, hne⟩
      cases hx
      exact absurd rfl hne
    | cons x rest =>
      have hv : listCase U g k (.list (x :: rest)) A = .next A := by
        simp [listCase, not_participating_of_authors hk]
      rw [hv]
      exact ⟨⟨fun _ => ⟨_, rfl, List.cons_ne_nil _ _⟩, fun _ => rfl⟩, fun h => (by cases h),
        fun h => absurd rfl (h _)⟩
  | str s =>
    exact ⟨⟨fun h => (by cases h), fun ⟨_, h, _⟩ => (by cases h)⟩, fun h => (by cases h),
      fun _ => rfl⟩
  | int i =>
    exact ⟨⟨fun h => (by cases h), fun ⟨_, h, _⟩ => (by cases h)⟩, fun h => (by cases h),
      fun _ => rfl⟩
  | bool b =>
    exact ⟨⟨fun h => (by cases h), fun ⟨_, h, _⟩ => (by cases h)⟩, fun h => (by cases h),
      fun _ => rfl⟩
  | map m =>
    exact ⟨⟨fun h => (by cases h), fun ⟨_, h, _⟩ => (by cases h)⟩, fun h => (by cases h),
      fun _ => rfl⟩

/-- C10 amended, at scenario 3: `authors: []` gives MustHaveAtLeastOneValue("authors"). -/
theorem C10_author_lists_nonempty_witness :
    ValidateStructure asciiOnly (.ok ["sig-node"]) (.ok [])
        ([(.str "title", .str "Foo"), (.str "owning-sig", .str "sig-node")]
          ++ (Key.str "authors", Value.list []) :: [])
      = .error (.MustHaveAtLeastOneValue "authors") :=
  (C10_author_lists_nonempty asciiOnly ["sig-node"] []
    [(.str "title", .str "Foo"), (.str "owning-sig", .str "sig-node")] []
    "authors" (.list []) (Or.inl rfl) rfl rfl
    (by intro x hx; simp only [List.mem_cons, List.mem_singleton, List.not_mem_nil, or_false] at hx
        rcases hx with rfl | rfl <;> rfl)
    (by intro x hx; cases hx)
    (by intro h; cases h)).2.1 rfl

theorem rangeLoop_nil_iff (U : CaseTables) (g A : List String) (doc : Doc) :
    rangeLoop U g A doc = .nil ↔ ∀ e ∈ doc, entryOutcome U g A e = .nil := by
  induction doc with
  | nil => simp [rangeLoop]
  | cons e rest ih =>
    rw [rangeLoop_cons]
    cases h : entryOutcome U g A e with
    | nil =>
      simp only [ih, List.mem_cons, forall_eq_or_imp, h, true_and]
    | error x =>
      constructor
      · intro hh; cases hh
      · intro hh
        have := hh e (List.mem_cons_self _ _)
        rw [h] at this
        cases this
    | panic =>
      constructor
      · intro hh; cases hh
      · intro hh
        have := hh e (List.mem_cons_self _ _)
        rw [h] at this
        cases this

/-- A result other than nil is what the rule says of one of the entries. -/
theorem rangeLoop_failure_mem (U : CaseTables) (g A : List String) (doc : Doc)
    (h : rangeLoop U g A doc ≠ .nil) :
    ∃ e ∈ doc, entryOutcome U g A e = rangeLoop U g A doc := by
  induction doc with
  | nil => exact absurd rfl h
  | cons e rest ih =>
    rw [rangeLoop_cons] at h ⊢
    cases he : entryOutcome U g A e with
    | nil =>
      rw [he] at h
      obtain ⟨x, hx, hxe⟩ := ih h
      exact ⟨x, List.mem_cons_of_mem _ hx, hxe⟩
    | error x => exact ⟨e, List.mem_cons_self _ _, he⟩
    | panic => exact ⟨e, List.mem_cons_self _ _, he⟩

theorem hasKey_perm {doc1 doc2 : Doc} (hp : doc1.Perm doc2) (name : String) :
    hasKey doc1 name = hasKey doc2 name := by
  rw [Bool.eq_iff_iff]
  simp only [hasKey, List.any_eq_true]
  constructor
  · rintro ⟨e, he, h⟩; exact ⟨e, hp.mem_iff.mp he, h⟩
  · rintro ⟨e, he, h⟩; exact ⟨e, hp.mem_iff.mpr he, h⟩

theorem hasKey_insert (pre post : Doc) (e : Key × Value) (name : String)
    (h : hasKey (pre ++ post) name = true) : hasKey (pre ++ e :: post) name = true := by
  simp only [hasKey, List.any_eq_true, List.mem_append, List.mem_cons] at h ⊢
  obtain ⟨x, hx, hxe⟩ := h
  rcases hx with hx | hx
  · exact ⟨x, Or.inl hx, hxe⟩
  · exact ⟨x, Or.inr (Or.inr hx), hxe⟩

/-- The mandatory-key loop lets a document through exactly when both keys are there. -/
theorem mandatory_none_iff (doc : Doc) :
    mandatoryKeys.find? (fun key => !hasKey doc key) = none
      ↔ hasKey doc "title" = true ∧ hasKey doc "owning-sig" = true := by
  simp [mandatoryKeys, List.find?_eq_none]

/-- When `ValidateStructure` returns nil: both mandatory keys are there, both fetches
succeed, and every entry passes the rule for its key. -/
theorem ValidateStructure_nil_iff (U : CaseTables) (FetchGroups FetchPRRApprovers : Except Err (List String))
    (doc : Doc) :
    ValidateStructure U FetchGroups FetchPRRApprovers doc = .nil ↔
      hasKey doc "title" = true ∧ hasKey doc "owning-sig" = true ∧
      ∃ g A, FetchGroups = .ok g ∧ FetchPRRApprovers = .ok A ∧
        ∀ e ∈ doc, entryOutcome U g A e = .nil := by
  unfold ValidateStructure
  cases hm : mandatoryKeys.find? (fun key => !hasKey doc key) with
  | some key =>
    have hn : ¬ (hasKey doc "title" = true ∧ hasKey doc "owning-sig" = true) := by
      intro hk
      rw [(mandatory_none_iff doc).mpr hk] at hm
      cases hm
    constructor
    · intro h; cases h
    · rintro ⟨h1, h2, -⟩; exact absurd ⟨h1, h2⟩ hn
  | none =>
    have hk := (mandatory_none_iff doc).mp hm
    cases FetchGroups with
    | error e =>
      constructor
      · intro h; cases h
      · rintro ⟨-, -, g, A, h, -⟩; cases h
    | ok g =>
      cases FetchPRRApprovers with
      | error e =>
        constructor
        · intro h; cases h
        · rintro ⟨-, -, g, A, -, h, -⟩; cases h
      | ok A =>
        simp only [rangeLoop_nil_iff]
        constructor
        · intro h; exact ⟨hk.1, hk.2, g, A, rfl, rfl, h⟩
        · rintro ⟨-, -, g2, A2, h1, h2, h⟩
          cases h1; cases h2; exact h

/-- An accepted document stays accepted when an entry that passes its rule under every
reference list is added to it, wherever the `range` loop meets the new entry. -/
theorem ValidateStructure_insert (U : CaseTables) (FetchGroups FetchPRRApprovers : Except Err (List String))
    (pre post : Doc) (e : Key × Value)
    (h : ValidateStructure U FetchGroups FetchPRRApprovers (pre ++ post) = .nil)
    (he : ∀ g A, entryOutcome U g A e = .nil) :
    ValidateStructure U FetchGroups FetchPRRApprovers (pre ++ e :: post) = .nil := by
  obtain ⟨ht, ho, g, A, hg, hA, hall⟩ := (ValidateStructure_nil_iff U _ _ _).mp h
  refine (ValidateStructure_nil_iff U _ _ _).mpr
    ⟨hasKey_insert pre post e _ ht, hasKey_insert pre post e _ ho, g, A, hg, hA, ?_⟩
  intro x hx
  simp only [List.mem_append, List.mem_cons] at hx
  rcases hx with hx | rfl | hx
  · exact hall x (List.mem_append_left _ hx)
  · exact he g A
  · exact hall x (List.mem_append_right _ hx)

theorem checkEntry_editor {U : CaseTables} {k : String} (h : ToLower U k = "editor")
    (g A : List String) (v : Value) :
    checkEntry U g A (.str k) v
      = if v.isNil then .next A else stringCase k v A := by
  rw [checkEntry_str, h]; rfl

/-- C11, as stated, fails for the empty string: the document {title, owning-sig} is
accepted, and with `editor: ""` added it is rejected with MustHaveOneValue("editor");
only a nil value is skipped. -/
theorem C11_counterexample_empty_string_editor :
    (∀ U : CaseTables, ValidateStructure U (.ok ["sig-node"]) (.ok [])
        [(.str "title", .str "Foo"), (.str "owning-sig", .str "sig-node")]
      = .nil)
    ∧ (∀ U : CaseTables, ValidateStructure U (.ok ["sig-node"]) (.ok [])
        [(.str "title", .str "Foo"), (.str "owning-sig", .str "sig-node"),
         (.str "editor", .str "")]
      = .error (.MustHaveOneValue "editor")) :=
  ⟨fun _ => rfl, fun _ => rfl⟩

/-- C11, amended: the `editor` field is optional and may be null: for every document that
ValidateStructure accepts and that has no `editor` entry, adding an `editor` entry whose
value is null still yields acceptance, with no further check applied to it. -/
theorem C11_null_editor_accepted (U : CaseTables)
    (FetchGroups FetchPRRApprovers : Except Err (List String)) (pre post : Doc) (k : String)
    (hk : ToLower U k = "editor")
    (_hnew : hasKey (pre ++ post) k = false)
    (h : ValidateStructure U FetchGroups FetchPRRApprovers (pre ++ post) = .nil) :
    ValidateStructure U FetchGroups FetchPRRApprovers (pre ++ (Key.str k, Value.null) :: post)
      = .nil := by
  apply ValidateStructure_insert U _ _ pre post _ h
  intro g A
  simp only [entryOutcome, checkEntry_editor hk]
  rfl

/-- C11 amended, at the document {title, owning-sig} with `editor: null` put in front. -/
theorem C11_null_editor_accepted_witness :
    ValidateStructure asciiOnly (.ok ["sig-node"]) (.ok [])
        ([] ++ (Key.str "editor", Value.null)
          :: [(.str "title", .str "Foo"), (.str "owning-sig", .str "sig-node")])
      = .nil :=
  C11_null_editor_accepted asciiOnly (.ok ["sig-node"]) (.ok []) []
    [(.str "title", .str "Foo"), (.str "owning-sig", .str "sig-node")] "editor" rfl rfl rfl

/-- The steps of `ValidatePRR` after `isPRRRequired` has answered required, no error. -/
theorem ValidatePRR_required (E : KepvalEnv) (kep : Proposal) (h : PRRHandler) (prrDir : String)
    (m : Bool) (hreq : isPRRRequired E.IsMissingMilestone kep = (true, m, none)) :
    ValidatePRR E kep h prrDir =
      match E.Open (prrFilename E kep) with
      | .notExist err => ⟨some (.notExist err), [prrFilename E kep]⟩
      | .failed err => ⟨some (.couldNotOpen err (prrFilename E kep)), [prrFilename E kep]⟩
      | .file prrFile =>
        match h.Parse prrFile with
        | .error prrParseErr => ⟨some (.parsing prrParseErr), [prrFilename E kep]⟩
        | .ok prr =>
          match prr.Error with
          | some err => ⟨some (.hasError err (prrFilename E kep)), [prrFilename E kep]⟩
          | none =>
            if !IsOneOf (prr.ApproverForStage (stageMilestone kep)) h.PRRApprovers then
              ⟨some (.notApprover (prr.ApproverForStage (stageMilestone kep)) h.PRRApprovers),
                [prrFilename E kep]⟩
            else ⟨none, [prrFilename E kep]⟩ := by
  unfold ValidatePRR
  rw [hreq]
  rfl

theorem ValidatePRR_not_required (E : KepvalEnv) (kep : Proposal) (h : PRRHandler)
    (prrDir : String) (m : Bool)
    (hreq : isPRRRequired E.IsMissingMilestone kep = (false, m, none)) :
    ValidatePRR E kep h prrDir = ⟨none, []⟩ := by
  unfold ValidatePRR
  rw [hreq]
  rfl

theorem ValidatePRR_check_failed (E : KepvalEnv) (kep : Proposal) (h : PRRHandler)
    (prrDir : String) (r m : Bool) (err : String)
    (hreq : isPRRRequired E.IsMissingMilestone kep = (r, m, some err)) :
    ValidatePRR E kep h prrDir = ⟨some (.checking err), []⟩ := by
  unfold ValidatePRR
  rw [hreq]

/-- C12: ValidatePRR returns nil exactly when (1) isPRRRequired answers required = false
without error, and then no file is opened and the run is the same for every handler,
directory argument and file system; or (2) the review is required, the review file opens,
h.Parse succeeds, the record has no Error, and the approver the record gives for the
milestone of the current stage is in h.PRRApprovers. When all steps before the membership
check succeed and the approver is not in the list, the error names the approver and the
list. -/
theorem C12_ValidatePRR_nil_cases (E : KepvalEnv) (kep : Proposal) (h : PRRHandler)
    (prrDir : String) :
    ((ValidatePRR E kep h prrDir).err = none ↔
        (∃ m, isPRRRequired E.IsMissingMilestone kep = (false, m, none))
        ∨ ((∃ m, isPRRRequired E.IsMissingMilestone kep = (true, m, none))
          ∧ ∃ prrFile prr, E.Open (prrFilename E kep) = .file prrFile
              ∧ h.Parse prrFile = .ok prr ∧ prr.Error = none
              ∧ prr.ApproverForStage (stageMilestone kep) ∈ h.PRRApprovers))
    ∧ ((∃ m, isPRRRequired E.IsMissingMilestone kep = (false, m, none)) →
        ∀ (Open2 : String → OpenResult) (h2 : PRRHandler) (prrDir2 : String),
          ValidatePRR { E with Open := Open2 } kep h2 prrDir2 = ⟨none, []⟩)
    ∧ (∀ m prrFile prr, isPRRRequired E.IsMissingMilestone kep = (true, m, none) →
        E.Open (prrFilename E kep) = .file prrFile → h.Parse prrFile = .ok prr →
        prr.Error = none → prr.ApproverForStage (stageMilestone kep) ∉ h.PRRApprovers →
        (ValidatePRR E kep h prrDir).err
          = some (.notApprover (prr.ApproverForStage (stageMilestone kep)) h.PRRApprovers)) := by
  refine ⟨?_, ?_, ?_⟩
  · rcases hr : isPRRRequired E.IsMissingMilestone kep with ⟨r, m, e⟩
    cases e with
    | some err =>
      rw [ValidatePRR_check_failed E kep h prrDir r m err hr]
      constructor
      · intro hh; cases hh
      · rintro (⟨m2, hh⟩ | ⟨⟨m2, hh⟩, -⟩) <;> cases hh
    | none =>
      cases r with
      | false =>
        rw [ValidatePRR_not_required E kep h prrDir m hr]
        exact ⟨fun _ => Or.inl ⟨m, rfl⟩, fun _ => rfl⟩
      | true =>
        rw [ValidatePRR_required E kep h prrDir m hr]
        constructor
        · intro hh
          right
          refine ⟨⟨m, rfl⟩, ?_⟩
          cases ho : E.Open (prrFilename E kep) with
          | notExist err => rw [ho] at hh; cases hh
          | failed err => rw [ho] at hh; cases hh
          | file prrFile =>
            rw [ho] at hh
            simp only at hh
            cases hp : h.Parse prrFile with
            | error e => rw [hp] at hh; cases hh
            | ok prr =>
              rw [hp] at hh
              simp only at hh
              cases hE : prr.Error with
              | some e => rw [hE] at hh; cases hh
              | none =>
                rw [hE] at hh
                simp only at hh
                by_cases hin : prr.ApproverForStage (stageMilestone kep) ∈ h.PRRApprovers
                · exact ⟨prrFile, prr, rfl, hp, hE, hin⟩
                · simp [IsOneOf, hin] at hh
        · rintro (⟨m2, hh⟩ | ⟨-, prrFile, prr, ho, hp, hE, hin⟩)
          · cases hh
          · rw [ho]
            simp only [hp, hE, IsOneOf, hin, decide_True, Bool.not_true, Bool.false_eq_true,
              if_false]
  · rintro ⟨m, hr⟩ Open2 h2 prrDir2
    exact ValidatePRR_not_required { E with Open := Open2 } kep h2 prrDir2 m hr
  · intro m prrFile prr hr ho hp hE hin
    rw [ValidatePRR_required E kep h prrDir m hr, ho]
    simp only [hp, hE, IsOneOf, hin, decide_False, Bool.not_false, if_true]

/-- C12 at concrete proposals: a provisional proposal needs no review and nothing is
opened; an implementable one for v1.21 at stage alpha, whose record names john for
"v1.21", passes; at stage beta the record names nobody for "v1.22" and the error names
the empty approver and the list. -/
theorem C12_ValidatePRR_nil_cases_witness :
    ValidatePRR sampleEnv (sampleKep "provisional" "alpha" "v1.21") sampleHandler
        "keps/prod-readiness"
      = ⟨none, []⟩
    ∧ (ValidatePRR sampleEnv (sampleKep "implementable" "alpha" "v1.21") sampleHandler
        "keps/prod-readiness").err
      = none
    ∧ (ValidatePRR sampleEnv (sampleKep "implementable" "beta" "v1.21") sampleHandler
        "keps/prod-readiness").err
      = some (.notApprover "" ["john", "wojtek"]) :=
  ⟨(C12_ValidatePRR_nil_cases sampleEnv (sampleKep "provisional" "alpha" "v1.21") sampleHandler
      "keps/prod-readiness").2.1 ⟨false, rfl⟩ sampleEnv.Open sampleHandler "keps/prod-readiness",
   (C12_ValidatePRR_nil_cases sampleEnv (sampleKep "implementable" "alpha" "v1.21") sampleHandler
      "keps/prod-readiness").1.mpr
     (Or.inr ⟨⟨false, rfl⟩, "approver: john", ⟨none, fun s => if s = "v1.21" then "john" else ""⟩,
       rfl, rfl, rfl, by decide⟩),
   (C12_ValidatePRR_nil_cases sampleEnv (sampleKep "implementable" "beta" "v1.21") sampleHandler
      "keps/prod-readiness").2.2 false "approver: john"
     ⟨none, fun s => if s = "v1.21" then "john" else ""⟩ rfl rfl rfl rfl (by decide)⟩

/-- C13 (the code at the failing inputs): whenever the review is required, the one file
that ValidatePRR opens is at the join of the package-level prrsDir, the proposal's
OwningSIG and its Number followed by ".yaml"; the directory argument takes no part, and
two runs that differ only in it are the same run. -/
theorem C13_opened_path_ignores_argument (E : KepvalEnv) (kep : Proposal) (h : PRRHandler)
    (prrDir1 prrDir2 : String) (m : Bool)
    (hreq : isPRRRequired E.IsMissingMilestone kep = (true, m, none)) :
    (ValidatePRR E kep h prrDir1).opened
        = [E.Join [E.prrsDir, kep.OwningSIG, kep.Number ++ ".yaml"]]
      ∧ ValidatePRR E kep h prrDir1 = ValidatePRR E kep h prrDir2 := by
  refine ⟨?_, ?_⟩
  · rw [ValidatePRR_required E kep h prrDir1 m hreq]
    cases E.Open (prrFilename E kep) with
    | notExist err => rfl
    | failed err => rfl
    | file prrFile =>
      simp only
      cases h.Parse prrFile with
      | error e => rfl
      | ok prr =>
        simp only
        cases prr.Error with
        | some e => rfl
        | none =>
          simp only
          split_ifs <;> rfl
  · rw [ValidatePRR_required E kep h prrDir1 m hreq, ValidatePRR_required E kep h prrDir2 m hreq]

/-- C13 at a proposal that requires the review, with the directory arguments "records-a"
and "records-b": both runs open keps/prod-readiness/sig-node/1234.yaml. -/
theorem C13_opened_path_ignores_argument_witness :
    (ValidatePRR sampleEnv (sampleKep "implementable" "alpha" "v1.21") sampleHandler
        "records-a").opened
      = ["keps/prod-readiness/sig-node/1234.yaml"]
    ∧ ValidatePRR sampleEnv (sampleKep "implementable" "alpha" "v1.21") sampleHandler "records-a"
      = ValidatePRR sampleEnv (sampleKep "implementable" "alpha" "v1.21") sampleHandler
          "records-b" :=
  C13_opened_path_ignores_argument sampleEnv (sampleKep "implementable" "alpha" "v1.21")
    sampleHandler "records-a" "records-b" false rfl

/-- C14: isPRRRequired returns a non-nil error exactly when Status is "implementable", the
latest milestone is not missing, and semver.ParseTolerant fails on LatestMilestone; the
error is that failure, wrapped, beside required = true; and parsing the threshold "v1.21"
succeeds, so its error branch is never taken. -/
theorem C14_error_iff_milestone_unparsable (IsMissingMilestone : Proposal → Bool)
    (kep : Proposal) :
    ((isPRRRequired IsMissingMilestone kep).2.2 ≠ none ↔
        kep.Status = "implementable" ∧ IsMissingMilestone kep = false
          ∧ ∃ e, ParseTolerant kep.LatestMilestone = .error e)
    ∧ (∀ e, kep.Status = "implementable" → IsMissingMilestone kep = false →
        ParseTolerant kep.LatestMilestone = .error e →
        isPRRRequired IsMissingMilestone kep
          = (true, false, some (Wrap e "creating a SemVer object for latest milestone")))
    ∧ (∃ v, ParseTolerant "v1.21" = .ok v) := by
  refine ⟨?_, ?_, ⟨_, ParseTolerant_threshold⟩⟩
  · unfold isPRRRequired
    by_cases hs : kep.Status = "implementable"
    · rw [if_neg (not_not.mpr hs)]
      cases hm : IsMissingMilestone kep with
      | true =>
        simp only [if_true]
        constructor
        · intro hh; exact absurd rfl hh
        · rintro ⟨-, h2, -⟩; cases h2
      | false =>
        simp only [Bool.false_eq_true, if_false, ParseTolerant_threshold]
        cases hp : ParseTolerant kep.LatestMilestone with
        | error e =>
          simp only
          exact ⟨fun _ => ⟨hs, (by simp), e, rfl⟩, fun _ hh => (by cases hh)⟩
        | ok v =>
          simp only
          constructor
          · intro hh
            split_ifs at hh <;> exact absurd rfl hh
          · rintro ⟨-, -, e, he⟩; cases he
    · rw [if_pos hs]
      constructor
      · intro hh; exact absurd rfl hh
      · rintro ⟨h1, -⟩; exact absurd h1 hs
  · intro e hs hm hp
    unfold isPRRRequired
    rw [if_neg (not_not.mpr hs), hm]
    simp only [Bool.false_eq_true, if_false, ParseTolerant_threshold, hp]

/-- C15, as stated, fails: the document {title, owning-sig, status: in-progress, stage:
gamma} has two entries that fail their rules; visited status first the result names
status, visited stage first it names stage. -/
theorem C15_counterexample_two_failing_entries :
    List.Perm
        [(Key.str "title", Value.str "Foo"), (.str "owning-sig", .str "sig-node"),
         (.str "status", .str "in-progress"), (.str "stage", .str "gamma")]
        [(Key.str "title", Value.str "Foo"), (.str "owning-sig", .str "sig-node"),
         (.str "stage", .str "gamma"), (.str "status", .str "in-progress")]
    ∧ (∀ U : CaseTables, ValidateStructure U (.ok ["sig-node"]) (.ok [])
        [(.str "title", .str "Foo"), (.str "owning-sig", .str "sig-node"),
         (.str "status", .str "in-progress"), (.str "stage", .str "gamma")]
      = .error (.ValueMustBeOneOf "status" "in-progress" statuses))
    ∧ (∀ U : CaseTables, ValidateStructure U (.ok ["sig-node"]) (.ok [])
        [(.str "title", .str "Foo"), (.str "owning-sig", .str "sig-node"),
         (.str "stage", .str "gamma"), (.str "status", .str "in-progress")]
      = .error (.ValueMustBeOneOf "stage" "gamma" stages)) :=
  ⟨List.Perm.cons _ (List.Perm.cons _ (List.Perm.swap _ _ _)), fun _ => rfl, fun _ => rfl⟩

/-- C15, amended: with fixed reference lists the result of ValidateStructure is the same
for every order of visiting the entries, provided that the entries that fail their rule
all fail with one and the same outcome (so in particular when at most one entry fails);
this covers a missing mandatory key and a failing fetch, which are met before the loop. -/
theorem C15_same_result_when_failures_agree (U : CaseTables)
    (FetchGroups FetchPRRApprovers : Except Err (List String)) (doc1 doc2 : Doc)
    (hp : doc1.Perm doc2)
    (hagree : ∀ g A, FetchGroups = .ok g → FetchPRRApprovers = .ok A →
      ∀ e1 ∈ doc1, ∀ e2 ∈ doc1, entryOutcome U g A e1 ≠ .nil → entryOutcome U g A e2 ≠ .nil →
        entryOutcome U g A e1 = entryOutcome U g A e2) :
    ValidateStructure U FetchGroups FetchPRRApprovers doc1
      = ValidateStructure U FetchGroups FetchPRRApprovers doc2 := by
  unfold ValidateStructure
  have hkeys : (fun key => !hasKey doc1 key) = (fun key => !hasKey doc2 key) := by
    funext key
    rw [hasKey_perm hp]
  rw [hkeys]
  cases mandatoryKeys.find? (fun key => !hasKey doc2 key) with
  | some key => rfl
  | none =>
    cases FetchGroups with
    | error e => rfl
    | ok g =>
      cases FetchPRRApprovers with
      | error e => rfl
      | ok A =>
        simp only
        by_cases h1 : rangeLoop U g A doc1 = .nil
        · have hall := (rangeLoop_nil_iff U g A doc1).mp h1
          have h2 : rangeLoop U g A doc2 = .nil :=
            (rangeLoop_nil_iff U g A doc2).mpr (fun e he => hall e (hp.mem_iff.mpr he))
          rw [h1, h2]
        · have h2 : rangeLoop U g A doc2 ≠ .nil := by
            intro hn
            have hall := (rangeLoop_nil_iff U g A doc2).mp hn
            exact h1 ((rangeLoop_nil_iff U g A doc1).mpr
              (fun e he => hall e (hp.mem_iff.mp he)))
          obtain ⟨e1, he1, ho1⟩ := rangeLoop_failure_mem U g A doc1 h1
          obtain ⟨e2, he2, ho2⟩ := rangeLoop_failure_mem U g A doc2 h2
          have hne1 : entryOutcome U g A e1 ≠ .nil := by rw [ho1]; exact h1
          have hne2 : entryOutcome U g A e2 ≠ .nil := by rw [ho2]; exact h2
          rw [← ho1, ← ho2]
          exact hagree g A rfl rfl e1 he1 e2 (hp.mem_iff.mpr he2) hne1 hne2

/-- C15 amended, at a document whose only failing entry is status: in-progress: visited
last or first, the result is the same. -/
theorem C15_same_result_when_failures_agree_witness :
    ValidateStructure asciiOnly (.ok ["sig-node"]) (.ok [])
        ([(.str "title", .str "Foo"), (.str "owning-sig", .str "sig-node")]
          ++ [(.str "status", .str "in-progress")])
      = ValidateStructure asciiOnly (.ok ["sig-node"]) (.ok [])
        ([(.str "status", .str "in-progress")]
          ++ [(.str "title", .str "Foo"), (.str "owning-sig", .str "sig-node")]) :=
  C15_same_result_when_failures_agree asciiOnly (.ok ["sig-node"]) (.ok []) _ _
    List.perm_append_comm
    (by
      intro g A hg hA e1 h1 e2 h2 n1 n2
      cases hg
      cases hA
      simp only [List.mem_append, List.mem_cons, List.mem_singleton, List.not_mem_nil,
        or_false] at h1 h2
      rcases h1 with (rfl | rfl) | rfl
      · exact absurd rfl n1
      · exact absurd rfl n1
      · rcases h2 with (rfl | rfl) | rfl
        · exact absurd rfl n2
        · exact absurd rfl n2
        · rfl)

theorem validateMilestone_nil_keys (U : CaseTables) :
    ∀ m : List (Key × Value), validateMilestone U m = .nil → ∀ e ∈ m, e.1.isString = true := by
  intro m
  induction m with
  | nil => intro _ e he; cases he
  | cons x rest ih =>
    obtain ⟨key, value⟩ := x
    intro h e he
    cases key with
    | str k =>
      have hrest : validateMilestone U rest = .nil := by
        simp only [validateMilestone] at h
        by_cases h1 : ToLower U k = "alpha" ∨ ToLower U k = "beta" ∨ ToLower U k = "stable"
        · rw [if_pos h1] at h
          by_cases h2 : (!reMilestone.Match (asString value)) = true
          · cases value <;> simp only [h2, if_true] at h <;> cases h
          · cases value <;> simp only [h2, if_false] at h <;>
              first
                | exact h
                | cases h
        · rw [if_neg h1] at h
          exact h
      simp only [List.mem_cons] at he
      rcases he with rfl | he
      · rfl
      · exact ih hrest e he
    | int i => cases h
    | bool b => cases h
    | null => cases h

theorem entryOutcome_non_string_key (U : CaseTables) (g A : List String) (e : Key × Value)
    (h : e.1.isString = false) : entryOutcome U g A e = .error (.KeyMustBeString "") := by
  obtain ⟨key, value⟩ := e
  cases key with
  | str k => cases h
  | int i => rfl
  | bool b => rfl
  | null => rfl

/-- C16: a document with a key that is not a string, at the top level or inside the
mapping of a `milestone` entry, never gets nil from ValidateStructure, whatever its other
entries, the visiting order and the outcome of the fetches. -/
theorem C16_non_string_key_rejected (U : CaseTables)
    (FetchGroups FetchPRRApprovers : Except Err (List String)) (doc : Doc)
    (h : (∃ e ∈ doc, e.1.isString = false)
      ∨ (∃ k m, (Key.str k, Value.map m) ∈ doc ∧ ToLower U k = "milestone"
          ∧ ∃ e ∈ m, e.1.isString = false)) :
    ValidateStructure U FetchGroups FetchPRRApprovers doc ≠ .nil := by
  intro hnil
  obtain ⟨-, -, g, A, -, -, hall⟩ := (ValidateStructure_nil_iff U _ _ _).mp hnil
  rcases h with ⟨e, he, hk⟩ | ⟨k, m, hmem, hk, e, he, hns⟩
  · have := hall e he
    rw [entryOutcome_non_string_key U g A e hk] at this
    cases this
  · have hpass := hall _ hmem
    simp only [entryOutcome, checkEntry_milestone hk, milestoneCase] at hpass
    cases hv : validateMilestone U m with
    | nil =>
      have := validateMilestone_nil_keys U m hv e he
      rw [hns] at this
      cases this
    | error x => rw [hv] at hpass; cases hpass
    | panic => rw [hv] at hpass; cases hpass

/-- C16 at concrete documents: an integer key at the top level, and an integer key inside
the `milestone` mapping after a valid-looking entry. -/
theorem C16_non_string_key_rejected_witness :
    ValidateStructure asciiOnly (.ok ["sig-node"]) (.ok [])
        [(.str "title", .str "Foo"), (.str "owning-sig", .str "sig-node"), (.int 3, .null)]
      ≠ .nil
    ∧ ValidateStructure asciiOnly (.ok ["sig-node"]) (.ok [])
        [(.str "title", .str "Foo"), (.str "owning-sig", .str "sig-node"),
         (.str "milestone", .map [(.str "gamma", .str "v1.21"), (.int 3, .str "v1.22")])]
      ≠ .nil :=
  ⟨C16_non_string_key_rejected asciiOnly _ _ _
      (Or.inl ⟨(.int 3, .null), by simp, rfl⟩),
   C16_non_string_key_rejected asciiOnly _ _ _
      (Or.inr ⟨"milestone", [(.str "gamma", .str "v1.21"), (.int 3, .str "v1.22")], by simp, rfl,
        (.int 3, .str "v1.22"), by simp, rfl⟩)⟩

theorem checkEntry_unknown {U : CaseTables} {k : String}
    (h : ToLower U k ∉ canonicalFields) (g A : List String) (v : Value) :
    checkEntry U g A (.str k) v = .next A := by
  simp only [canonicalFields, List.mem_cons, List.mem_singleton, List.not_mem_nil, or_false,
    not_or] at h
  obtain ⟨h1, h2, h3, h4, h5, h6, h7, h8, h9, h10, h11, h12, h13, h14, h15, h16, h17⟩ := h
  rw [checkEntry_str, if_neg h1, if_neg h2, if_neg h3, if_neg h4,
    if_neg (by rintro (x | x | x) <;> contradiction),
    if_neg (by rintro (x | x | x | x) <;> contradiction),
    if_neg (by rintro (x | x | x) <;> contradiction),
    if_neg h15, if_neg h16, if_neg h17]

/-- C17: for every document that ValidateStructure accepts and every string key whose
lower-cased form is none of the canonical field names, the document extended with that
key, mapped to any value whatsoever and visited at any point, is accepted too. -/
theorem C17_unknown_field_accepted (U : CaseTables)
    (FetchGroups FetchPRRApprovers : Except Err (List String)) (pre post : Doc) (k : String)
    (v : Value) (hk : ToLower U k ∉ canonicalFields)
    (h : ValidateStructure U FetchGroups FetchPRRApprovers (pre ++ post) = .nil) :
    ValidateStructure U FetchGroups FetchPRRApprovers (pre ++ (Key.str k, v) :: post) = .nil := by
  apply ValidateStructure_insert U _ _ pre post _ h
  intro g A
  simp only [entryOutcome, checkEntry_unknown hk]
  rfl

/-- C17 at the accepted document {title, owning-sig} extended with `see-also-too`, an
unknown key, mapped to a list that holds a null. -/
theorem C17_unknown_field_accepted_witness :
    ValidateStructure asciiOnly (.ok ["sig-node"]) (.ok [])
        ([(.str "title", .str "Foo")] ++ (Key.str "see-also-too", Value.list [.null, .int 1])
          :: [(.str "owning-sig", .str "sig-node")])
      = .nil :=
  C17_unknown_field_accepted asciiOnly (.ok ["sig-node"]) (.ok [])
    [(.str "title", .str "Foo")] [(.str "owning-sig", .str "sig-node")] "see-also-too"
    (.list [.null, .int 1]) (by decide) rfl

/-- C18 (the code at the failing input): when kepval.ValidateRepository returns one
validation error in its second result and a nil error, runValidate returns nil; what
runValidate returns is the third result alone. -/
theorem C18_validation_errors_discarded :
    runValidate (fun _ => ⟨[], ["keps/sig-node/1234/kep.yaml: this contributor (eve) is not a PRR approver"], none⟩)
        "."
      = none
    ∧ ∀ (ValidateRepository : String → RepositoryReport) (RepoPath : String),
        runValidate ValidateRepository RepoPath = (ValidateRepository RepoPath).err :=
  ⟨rfl, fun V p => by unfold runValidate; cases (V p).err <;> rfl⟩

/-- C19 (the code at the failing inputs): a `prr-approvers` list that holds a null, and a
`participating-sigs` list that holds an integer, make the single-value type assertion
`value.(string)` panic: ValidateStructure returns neither nil nor an error. -/
theorem C19_non_string_element_panics (U : CaseTables) :
    ValidateStructure U (.ok ["sig-node"]) (.ok ["john"])
        [(.str "title", .str "Foo"), (.str "owning-sig", .str "sig-node"),
         (.str "prr-approvers", .list [.null])]
      = .panic
    ∧ ValidateStructure U (.ok ["sig-node"]) (.ok ["john"])
        [(.str "title", .str "Foo"), (.str "owning-sig", .str "sig-node"),
         (.str "participating-sigs", .list [.str "sig-node", .int 1])]
      = .panic :=
  ⟨rfl, rfl⟩

/-- C20: with fixed reference lists, ValidateStructure returns nil exactly when both
mandatory keys are present and every entry, taken on its own, passes the rule for its
key; hence for two orders of visiting the same entries one run returns nil exactly when
the other does. -/
theorem C20_acceptance_order_independent (U : CaseTables) (g A : List String) (doc : Doc) :
    (ValidateStructure U (.ok g) (.ok A) doc = .nil ↔
        hasKey doc "title" = true ∧ hasKey doc "owning-sig" = true
          ∧ ∀ e ∈ doc, entryOutcome U g A e = .nil)
    ∧ ∀ doc2 : Doc, doc.Perm doc2 →
        (ValidateStructure U (.ok g) (.ok A) doc = .nil
          ↔ ValidateStructure U (.ok g) (.ok A) doc2 = .nil) := by
  have key : ∀ d : Doc, ValidateStructure U (.ok g) (.ok A) d = .nil ↔
      hasKey d "title" = true ∧ hasKey d "owning-sig" = true
        ∧ ∀ e ∈ d, entryOutcome U g A e = .nil := by
    intro d
    rw [ValidateStructure_nil_iff]
    constructor
    · rintro ⟨h1, h2, g2, A2, hg, hA, hall⟩
      cases hg; cases hA
      exact ⟨h1, h2, hall⟩
    · rintro ⟨h1, h2, hall⟩
      exact ⟨h1, h2, g, A, rfl, rfl, hall⟩
  refine ⟨key doc, fun doc2 hp => ?_⟩
  rw [key doc, key doc2, hasKey_perm hp, hasKey_perm hp]
  constructor
  · rintro ⟨h1, h2, hall⟩
    exact ⟨h1, h2, fun e he => hall e (hp.mem_iff.mpr he)⟩
  · rintro ⟨h1, h2, hall⟩
    exact ⟨h1, h2, fun e he => hall e (hp.mem_iff.mp he)⟩

end Kep
